import Mathlib

/-!
# pyPulsedThread: the Python binding layer of the pulsedThread timing engine

A shallow embedding of the binding functions of `pyPulsedThread.h`.

* C `float` and `double` values are the rationals they denote; IEEE 754 rounding to nearest
  (ties to even) is `roundBinary`.  Infinities and NaN are not represented.
* The engine class `pulsedThread` is declared in `pulsedThread.h`, which is not among the
  sources.  Its methods are a parameter of every binding (`EngineOps`), and every binding
  reports, next to the Python result and the engine state, the list of calls it made.
* The static generator `pulsedThread::cosineDutyCycleArray` is missing as well: it is a
  parameter of its binding, and `cosineSample` with `pulsedThread.cosineDutyCycleArray` give
  it as the specification describes it, over the real numbers.
* `PyArg_ParseTuple` belongs to the interpreter: a binding receives the Python values, or
  `none` when parsing fails; a Python float is a double, which format unit `f` narrows to a
  C `float`.  The capsule argument is the engine state itself.
-/

namespace PyPulsedThread

/-! ## C numeric conversions -/

/-- Nearest integer to a rational, a tie going to the even neighbour. -/
def roundTiesEven (q : ℚ) : ℤ :=
  if q - ⌊q⌋ < 1 / 2 then ⌊q⌋
  else if 1 / 2 < q - ⌊q⌋ then ⌊q⌋ + 1
  else if ⌊q⌋ % 2 = 0 then ⌊q⌋ else ⌊q⌋ + 1

/-- Exponent of the last place of `x` in the binary format with `p` significand bits and
least normal exponent `emin`: below `2 ^ emin` the spacing is that of the subnormals. -/
def ulpExp (p : ℕ) (emin : ℤ) (x : ℚ) : ℤ :=
  max (Int.log 2 |x|) emin - p + 1

/-- IEEE 754 rounding to nearest, ties to even, onto the binary format with `p` significand
bits and least normal exponent `emin`.  Overflow to infinity is not represented: a value
beyond the finite range is rounded as if the exponents went on, which only happens where
the cast that follows is out of range anyway. -/
def roundBinary (p : ℕ) (emin : ℤ) (x : ℚ) : ℚ :=
  if x = 0 then 0
  else roundTiesEven (x / (2 : ℚ) ^ ulpExp p emin x) * (2 : ℚ) ^ ulpExp p emin x

/-- Rounding onto C `float` (binary32). -/
def roundBinary32 (x : ℚ) : ℚ := roundBinary 24 (-126) x

/-- Rounding onto C `double` (binary64). -/
def roundBinary64 (x : ℚ) : ℚ := roundBinary 53 (-1022) x

/-- The finite values of a C `float`: a significand below `2 ^ 24` in magnitude scaled by a
power of two between `2 ^ (-149)` and `2 ^ 104`. -/
def IsBinary32 (q : ℚ) : Prop :=
  ∃ m e : ℤ, |m| < 2 ^ 24 ∧ -149 ≤ e ∧ e ≤ 104 ∧ q = m * (2 : ℚ) ^ e

/-- C `round` on a double: the nearest integer, halves away from zero.  The result of `round`
is an integral double, given here as the integer it denotes. -/
def cround (x : ℚ) : ℤ :=
  if 0 ≤ x then ⌊x + 1 / 2⌋ else ⌈x - 1 / 2⌉

/-- The cast `(unsigned int) d` of an integral double `d`.  C++ defines it only when the
value fits the destination; what a given machine does otherwise is the parameter `ub`. -/
def castUInt (ub : ℤ → ℕ) (z : ℤ) : ℕ :=
  if 0 ≤ z ∧ z < 2 ^ 32 then z.toNat else ub z % 2 ^ 32

/-- The `int` that format unit `i` reads where an `unsigned int` was passed: the 32 bits are
kept, so a count below `2 ^ 31` is itself and a count from `2 ^ 31` on is `2 ^ 32` less. -/
def asCInt (k : ℕ) : ℤ :=
  if k % 2 ^ 32 < 2 ^ 31 then ((k % 2 ^ 32 : ℕ) : ℤ) else ((k % 2 ^ 32 : ℕ) : ℤ) - 2 ^ 32

/-- The constant `(float) 1e-06`: the decimal literal is first a double, then narrowed. -/
def float_1e_06 : ℚ := roundBinary32 (roundBinary64 (1 / 1000000))

/-- For a microsecond count `k` whose reported seconds lie between 8 and 16, where a float
has 20 binary places, a test in whole numbers that the seconds come back as `k`.  With
`8796093 * k = q * 2 ^ 23 + a` the float product is `n * 2 ^ (-20)` for `n = q` when `a` is
below half of `2 ^ 23` and `n = q + 1` when above, and `countOk n k` says that `round` takes
`1e06 * n * 2 ^ (-20)` to `k`. -/
def countOk (n k : ℕ) : Bool :=
  decide (16384 * k ≤ 15625 * n + 8192) && decide (15625 * n < 16384 * k + 8192)

/-- The test of `countOk` for the neighbour, or both neighbours at a tie, that the float
product of `(float) 1e-06` and `k` rounds to. -/
def roundTripCheck (k : ℕ) : Bool :=
  (decide (4194304 < 8796093 * k % 8388608) || countOk (8796093 * k / 8388608) k)
    && (decide (8796093 * k % 8388608 < 4194304) || countOk (8796093 * k / 8388608 + 1) k)

/-- The test `roundTripCheck` on the `2 ^ d` counts from `lo` on. -/
def checkBlock : ℕ → ℕ → Bool
  | 0, lo => roundTripCheck lo
  | d + 1, lo => checkBlock d lo && checkBlock d (lo + 2 ^ d)

/-! ## Python values -/

/-- Address of a Python object or of a C array. -/
abbrev Ptr := ℕ

/-- One argument built from a format unit: `i` gives an integer, `f` a float. -/
inductive PyArg where
  | int (v : ℤ)
  | float (v : ℚ)
deriving DecidableEq, Repr

/-- A call `PyObject_CallMethod (target, method, format, ...)`; `format` is `none` when the
source passes `NULL`, that is, when the method takes no arguments. -/
structure MethodCall where
  target : Ptr
  method : String
  format : Option String
  args : List PyArg
deriving DecidableEq, Repr

/-- What a binding hands back to the interpreter. -/
inductive PyResult where
  /-- The value of `Py_RETURN_NONE`. -/
  | none
  /-- The value of `Py_BuildValue ("i", v)`. -/
  | int (v : ℤ)
  /-- The value of `Py_BuildValue ("f", v)`. -/
  | float (v : ℚ)
  /-- A `RuntimeError` with this message was set and `NULL` returned. -/
  | error (msg : String)
deriving DecidableEq, Repr

/-- The binding raised an exception. -/
def PyResult.isError : PyResult → Bool
  | .error _ => true
  | _ => false

/-! ## The task descriptor and the callbacks -/

/-- The fields of `taskParams` that the bindings read or write.  The struct is declared in
`pulsedThread.h`.  The delay, the duration and the pulse count are `unsigned int`, as the
cast in `pulsedThread_modDelay` and the unsigned format units of the train-length setter and
getter show; `doTask` is an `int`; the three train fields are `float`. -/
structure taskParams where
  pulseDelayUsecs : ℕ
  pulseDurUsecs : ℕ
  nPulses : ℕ
  doTask : ℤ
  trainFrequency : ℚ
  trainDutyCycle : ℚ
  trainDuration : ℚ
  taskData : Ptr
  endFuncData : Ptr
deriving DecidableEq, Repr

/-- Functions that can be installed for the high or the low phase. -/
inductive PhaseFunc where
  | RunPythonHiFunc
  | RunPythonLoFunc
  /-- A function defined outside this header. -/
  | foreign (addr : ℕ)
deriving DecidableEq, Repr

/-- Functions that can be installed as end-of-task function. -/
inductive EndFunc where
  | RunPythonEndFunc_p
  | RunPythonEndFunc_f
  | pulsedThreadDutyCycleFromArrayEndFunc
  | pulsedThreadFreqFromArrayEndFunc
  /-- A function defined outside this header. -/
  | foreign (addr : ℕ)
deriving DecidableEq, Repr

/-- The two modification functions this header hands to `modCustom`. -/
inductive ModFunc where
  | modEndFuncObj
  | modTaskObj
deriving DecidableEq, Repr

/-- Runs `PyObject.HiFunc ()` on the task data. -/
def pulsedThread_RunPythonHiFunc (taskData : Ptr) : MethodCall :=
  { target := taskData, method := "HiFunc", format := none, args := [] }

/-- Runs `PyObject.LoFunc ()` on the task data. -/
def pulsedThread_RunPythonLoFunc (taskData : Ptr) : MethodCall :=
  { target := taskData, method := "LoFunc", format := none, args := [] }

/-- Runs `PyObject.EndFunc` with the pulse description: four integers.  Format unit `i`
reads each argument as an `int`, so the three unsigned counts arrive as `asCInt` of them. -/
def pulsedThread_RunPythonEndFunc_p (endFuncData : Ptr) (theTask : taskParams) : MethodCall :=
  { target := endFuncData, method := "EndFunc", format := some "(iiii)",
    args := [.int (asCInt theTask.pulseDelayUsecs), .int (asCInt theTask.pulseDurUsecs),
             .int (asCInt theTask.nPulses), .int theTask.doTask] }

/-- Runs `PyObject.EndFunc` with the train description: three floats and an integer. -/
def pulsedThread_RunPythonEndFunc_f (endFuncData : Ptr) (theTask : taskParams) : MethodCall :=
  { target := endFuncData, method := "EndFunc", format := some "(fffi)",
    args := [.float theTask.trainFrequency, .float theTask.trainDutyCycle,
             .float theTask.trainDuration, .int theTask.doTask] }

/-- The modification function that rebinds the end-function data. -/
def pulsedThread_modEndFuncObj (pyObjPtr : Ptr) (taskDataP : taskParams) : ℤ × taskParams :=
  (0, { taskDataP with endFuncData := pyObjPtr })

/-- The modification function that rebinds the task data. -/
def pulsedThread_modTaskObj (pyObjPtr : Ptr) (taskDataP : taskParams) : ℤ × taskParams :=
  (0, { taskDataP with taskData := pyObjPtr })

/-- The Python method call a phase function of this header makes. -/
def PhaseFunc.run : PhaseFunc → Ptr → Option MethodCall
  | .RunPythonHiFunc, d => some (pulsedThread_RunPythonHiFunc d)
  | .RunPythonLoFunc, d => some (pulsedThread_RunPythonLoFunc d)
  | .foreign _, _ => none

/-- The Python method call an end function of this header makes. -/
def EndFunc.run : EndFunc → Ptr → taskParams → Option MethodCall
  | .RunPythonEndFunc_p, d, t => some (pulsedThread_RunPythonEndFunc_p d t)
  | .RunPythonEndFunc_f, d, t => some (pulsedThread_RunPythonEndFunc_f d t)
  | _, _, _ => none

/-- The function a modification pointer stands for. -/
def ModFunc.run : ModFunc → Ptr → taskParams → ℤ × taskParams
  | .modEndFuncObj => pulsedThread_modEndFuncObj
  | .modTaskObj => pulsedThread_modTaskObj

/-! ## The engine as seen from the bindings -/

/-- A call made by a binding, on the engine or on the interpreter. -/
inductive Call where
  | DoTask
  | DoTasks (nTimes : ℤ)
  | startInfiniteTrain
  | stopInfiniteTrain
  | modDelay (usecs : ℕ)
  | modDur (usecs : ℕ)
  | getpulseDelayUsecs
  | getpulseDurUsecs
  | modCustom (f : ModFunc) (data : Ptr) (isLocking : ℤ)
  | setEndFunc (f : EndFunc)
  | setLowFunc (f : PhaseFunc)
  | setHighFunc (f : PhaseFunc)
  | setUpEndFuncArray (arrayStart : Ptr) (nData : ℕ) (isLocking : ℤ)
  | cosineDutyCycleArray (arrayData : Ptr) (arraySize period : ℕ) (offset scaling : ℚ)
  | PyEval_InitThreads
  | PyBuffer_Release
deriving DecidableEq, Repr

/-- The methods of `pulsedThread` that the embedded bindings call, over an engine state `σ`.
A method whose result the binding reads returns it next to the new state. -/
structure EngineOps (σ : Type) where
  DoTask : σ → σ
  DoTasks : ℤ → σ → σ
  startInfiniteTrain : σ → σ
  stopInfiniteTrain : σ → σ
  modDelay : ℕ → σ → ℤ × σ
  modDur : ℕ → σ → ℤ × σ
  getpulseDelayUsecs : σ → ℕ
  getpulseDurUsecs : σ → ℕ
  modCustom : ModFunc → Ptr → ℤ → σ → σ
  setEndFunc : EndFunc → σ → σ
  setLowFunc : PhaseFunc → σ → σ
  setHighFunc : PhaseFunc → σ → σ
  setUpEndFuncArray : Ptr → ℕ → ℤ → σ → ℤ × σ

/-- What a binding call leaves behind: the Python result, the engine, the calls made. -/
structure Outcome (σ : Type) where
  result : PyResult
  engine : σ
  calls : List Call

/-! ## The bindings -/

section Bindings

variable {σ : Type}

/-- Tells the engine to perform the task it was configured for. -/
def pulsedThread_doTask (eng : EngineOps σ) (st : σ) : Outcome σ :=
  { result := .none, engine := eng.DoTask st, calls := [.DoTask] }

/-- Tells the engine to perform its task `nTimes` times. -/
def pulsedThread_doTasks (eng : EngineOps σ) (args : Option ℤ) (st : σ) : Outcome σ :=
  match args with
  | none =>
    { result := .error
        "Could not parse arguments for pulsedThread pointer and number of times to do task",
      engine := st, calls := [] }
  | some nTimes =>
    { result := .none, engine := eng.DoTasks nTimes st, calls := [.DoTasks nTimes] }

/-- Tells an engine configured as an infinite train to start ticking. -/
def pulsedThread_startTrain (eng : EngineOps σ) (st : σ) : Outcome σ :=
  { result := .none, engine := eng.startInfiniteTrain st, calls := [.startInfiniteTrain] }

/-- Tells an engine configured as an infinite train to stop ticking. -/
def pulsedThread_stopTrain (eng : EngineOps σ) (st : σ) : Outcome σ :=
  { result := .none, engine := eng.stopInfiniteTrain st, calls := [.stopInfiniteTrain] }

/-- Modifies the delay of a pulse, the low time of a train.  The argument is the Python
float of seconds; format unit `f` narrows it to the C `float newDelay`, and the product
`1e06 * newDelay` is a double product. -/
def pulsedThread_modDelay (ub : ℤ → ℕ) (eng : EngineOps σ) (args : Option ℚ) (st : σ) :
    Outcome σ :=
  match args with
  | none =>
    { result := .error
        "Could not parse arguments for pulsedThread pointer and pulse delay seconds.",
      engine := st, calls := [] }
  | some newDelay =>
    { result := .int (eng.modDelay
        (castUInt ub (cround (roundBinary64 (1000000 * roundBinary32 newDelay)))) st).1,
      engine := (eng.modDelay
        (castUInt ub (cround (roundBinary64 (1000000 * roundBinary32 newDelay)))) st).2,
      calls :=
        [.modDelay (castUInt ub (cround (roundBinary64 (1000000 * roundBinary32 newDelay))))] }

/-- Modifies the duration of a pulse, the high time of a train.  The argument is the Python
float of seconds, narrowed to the C `float newDur` by format unit `f`. -/
def pulsedThread_modDur (ub : ℤ → ℕ) (eng : EngineOps σ) (args : Option ℚ) (st : σ) :
    Outcome σ :=
  match args with
  | none =>
    { result := .error
        "Could not parse arguments for pulsedThread pointer and pulse duration seconds.",
      engine := st, calls := [] }
  | some newDur =>
    { result := .int (eng.modDur
        (castUInt ub (cround (roundBinary64 (1000000 * roundBinary32 newDur)))) st).1,
      engine := (eng.modDur
        (castUInt ub (cround (roundBinary64 (1000000 * roundBinary32 newDur)))) st).2,
      calls :=
        [.modDur (castUInt ub (cround (roundBinary64 (1000000 * roundBinary32 newDur))))] }

/-- Reports the pulse delay in seconds: `(float) 1e-06 * getpulseDelayUsecs ()`, a `float`
product whose second factor is the unsigned count converted to `float`. -/
def pulsedThread_getPulseDelay (eng : EngineOps σ) (st : σ) : Outcome σ :=
  { result := .float (roundBinary32
      (float_1e_06 * roundBinary32 (eng.getpulseDelayUsecs st : ℚ))),
    engine := st, calls := [.getpulseDelayUsecs] }

/-- Reports the pulse duration in seconds: `(float) 1e-06 * getpulseDurUsecs ()`. -/
def pulsedThread_getPulseDuration (eng : EngineOps σ) (st : σ) : Outcome σ :=
  { result := .float (roundBinary32
      (float_1e_06 * roundBinary32 (eng.getpulseDurUsecs st : ℚ))),
    engine := st, calls := [.getpulseDurUsecs] }

/-- Changes the object used when calling the low and the high function.  The arguments
are the object and `isLocking`. -/
def pulsedThread_SetPythonTaskObj (eng : EngineOps σ) (args : Option (Ptr × ℤ))
    (threadsInitialized : Bool) (st : σ) : Outcome σ :=
  match args with
  | none =>
    { result := .error
        "Could not parse arguments for pulsedThread pointer, Python Object providing the HI and LO functions, and isLocking.",
      engine := st, calls := [] }
  | some (PyObjPtr, isLocking) =>
    { result := .none,
      engine := eng.modCustom .modTaskObj PyObjPtr isLocking
        (eng.setHighFunc .RunPythonLoFunc (eng.setLowFunc .RunPythonLoFunc st)),
      calls := [.setLowFunc .RunPythonLoFunc, .setHighFunc .RunPythonLoFunc,
                .modCustom .modTaskObj PyObjPtr isLocking]
        ++ (if threadsInitialized then [] else [.PyEval_InitThreads]) }

/-- The view `PyObject_GetBuffer` fills in. -/
structure Py_buffer where
  buf : Ptr
  len : ℤ
  itemsize : ℤ
  format : String
deriving DecidableEq, Repr

/-- A Python object as the buffer protocol sees it: whether `PyObject_CheckBuffer` accepts
it, and the view `PyObject_GetBuffer` yields (`none` when it returns -1). -/
structure BufferObj where
  checkBuffer : Bool
  getBuffer : Option Py_buffer
deriving DecidableEq, Repr

/-- The argument `(unsigned int) buffer.len/buffer.itemsize`: the cast binds to `buffer.len`
alone, the quotient is taken in `Py_ssize_t` and narrowed to the `unsigned int` parameter. -/
def arrayLength (len itemsize : ℤ) : ℕ :=
  (((len % 2 ^ 32).tdiv itemsize) % 2 ^ 32).toNat

/-- Passes an array to the engine and selects the engine end function that sets duty cycle
or frequency from it.  The arguments are the buffer object, `endFuncType`, `isLocking`. -/
def pulsedThread_setArrayFunc (eng : EngineOps σ) (args : Option (BufferObj × ℤ × ℤ))
    (st : σ) : Outcome σ :=
  match args with
  | none =>
    { result := .error
        "Could not parse arguments for pulsedThread pointer, floating point buffer,  endFunction type code, and isLocking.",
      engine := st, calls := [] }
  | some (bufferObj, endFuncType, isLocking) =>
    if bufferObj.checkBuffer = false then
      { result := .error "Error getting bufferObj from Python array.",
        engine := st, calls := [] }
    else
      match bufferObj.getBuffer with
      | none =>
        { result := .error "Error getting C array from bufferObj from Python array",
          engine := st, calls := [] }
      | some buffer =>
        if buffer.format ≠ "f" then
          { result := .error "Error for bufferObj: data type of Python array is not float",
            engine := st, calls := [] }
        else if (eng.setUpEndFuncArray buffer.buf
            (arrayLength buffer.len buffer.itemsize) isLocking st).1 ≠ 0 then
          { result := .error "Failed to set up the array for the endFunction",
            engine := (eng.setUpEndFuncArray buffer.buf
              (arrayLength buffer.len buffer.itemsize) isLocking st).2,
            calls := [.setUpEndFuncArray buffer.buf
              (arrayLength buffer.len buffer.itemsize) isLocking] }
        else if endFuncType = 0 then
          { result := .none,
            engine := eng.setEndFunc .pulsedThreadDutyCycleFromArrayEndFunc
              (eng.setUpEndFuncArray buffer.buf
                (arrayLength buffer.len buffer.itemsize) isLocking st).2,
            calls := [.setUpEndFuncArray buffer.buf
                        (arrayLength buffer.len buffer.itemsize) isLocking,
                      .setEndFunc .pulsedThreadDutyCycleFromArrayEndFunc,
                      .PyBuffer_Release] }
        else
          { result := .none,
            engine := eng.setEndFunc .pulsedThreadFreqFromArrayEndFunc
              (eng.setUpEndFuncArray buffer.buf
                (arrayLength buffer.len buffer.itemsize) isLocking st).2,
            calls := [.setUpEndFuncArray buffer.buf
                        (arrayLength buffer.len buffer.itemsize) isLocking,
                      .setEndFunc .pulsedThreadFreqFromArrayEndFunc,
                      .PyBuffer_Release] }

/-- Fills a float buffer with a cosine through the static generator
`pulsedThread::cosineDutyCycleArray`, here the parameter `generator`, which answers with its
status.  The arguments are the buffer object, `period`, and the Python floats `offset` and
`scaling`, which format unit `f` narrows to C `float`; the samples the generator writes into
the buffer are outside this model.  No engine is involved, so the outcome is the Python
result and the calls made. -/
def pulsedThread_cosineDutyCycleArray (generator : Ptr → ℕ → ℕ → ℚ → ℚ → ℤ)
    (args : Option (BufferObj × ℕ × ℚ × ℚ)) : PyResult × List Call :=
  match args with
  | none =>
    (.error
      "Could not parse arguments for floating point array, cos period, offset, and scaling",
     [])
  | some (bufferObj, period, offset, scaling) =>
    if bufferObj.checkBuffer = false then
      (.error "Error getting bufferObj from Python array.", [])
    else
      match bufferObj.getBuffer with
      | none => (.error "Error getting C array from bufferObj from Python array", [])
      | some buffer =>
        if buffer.format ≠ "f" then
          (.error "Error for bufferObj: data type of Python array is not float", [])
        else if generator buffer.buf (arrayLength buffer.len buffer.itemsize) period
            (roundBinary32 offset) (roundBinary32 scaling) ≠ 0 then
          (.error "Adjust offset and scaling so cosine is bounded by 0 and 1",
           [.cosineDutyCycleArray buffer.buf (arrayLength buffer.len buffer.itemsize) period
              (roundBinary32 offset) (roundBinary32 scaling)])
        else
          (.none,
           [.cosineDutyCycleArray buffer.buf (arrayLength buffer.len buffer.itemsize) period
              (roundBinary32 offset) (roundBinary32 scaling)])

end Bindings

/-! ## The engine of the specification -/

/-- Modelled from the spec: the engine state of the data model, one of Idle,
RunningFiniteTask, RunningInfiniteTrain and Stopping.  The engine class is declared in
`pulsedThread.h`, which is not among the sources. -/
inductive EngineState where
  | Idle
  | RunningFiniteTask
  | RunningInfiniteTrain
  | Stopping
deriving DecidableEq, Repr

/-- Modelled from the spec: the engine as the data model describes it, that is, its state,
the task descriptor, the installed callbacks, the bound waveform array with its cursor, and
the modification requests waiting for the next safe point (one slot per target).  The engine
class itself is missing from the sources. -/
structure Engine where
  state : EngineState
  theTask : taskParams
  hiFunc : PhaseFunc
  loFunc : PhaseFunc
  endFunc : Option EndFunc
  endFuncArray : Option (Ptr × ℕ × ℕ)
  pendingDelay : Option ℕ
  pendingDur : Option ℕ
  pendingCustom : Option (ModFunc × Ptr)
deriving DecidableEq, Repr

/-- Modelled from the spec: the derived fields of the task descriptor, which the engine
source (missing here) recomputes after a timing change: frequency `1 / (delay + duration)`,
duty cycle `duration / (delay + duration)`, train duration `count * (delay + duration)`, in
Hz and seconds for a delay and a duration in microseconds. -/
def retime (t : taskParams) (delay dur : ℕ) : taskParams :=
  { t with
    pulseDelayUsecs := delay
    pulseDurUsecs := dur
    trainFrequency := 1000000 / ((delay + dur : ℕ) : ℚ)
    trainDutyCycle := (dur : ℚ) / ((delay + dur : ℕ) : ℚ)
    trainDuration := (t.nPulses : ℚ) * ((delay + dur : ℕ) : ℚ) / 1000000 }

/-- Modelled from the spec: `modDelay` of the engine, whose source is missing.  The new value
is validated (a period below one microsecond has no frequency and is refused with status 1,
the engine unchanged), then applied with the dependent fields recomputed when the engine is
Idle, and queued for the next safe point otherwise; status 0. -/
def Engine.modDelay (usecs : ℕ) (e : Engine) : ℤ × Engine :=
  if usecs + e.theTask.pulseDurUsecs = 0 then (1, e)
  else if e.state = .Idle then
    (0, { e with theTask := retime e.theTask usecs e.theTask.pulseDurUsecs })
  else (0, { e with pendingDelay := some usecs })

/-- Modelled from the spec: `modDur` of the engine, whose source is missing; as `modDelay`,
for the pulse duration. -/
def Engine.modDur (usecs : ℕ) (e : Engine) : ℤ × Engine :=
  if e.theTask.pulseDelayUsecs + usecs = 0 then (1, e)
  else if e.state = .Idle then
    (0, { e with theTask := retime e.theTask e.theTask.pulseDelayUsecs usecs })
  else (0, { e with pendingDur := some usecs })

/-- Modelled from the spec: `modCustom` of the engine, whose source is missing.  The
transformation is applied in place when no locking is asked for or the engine is Idle, and
queued for the next safe point otherwise, replacing a request already waiting. -/
def Engine.modCustom (f : ModFunc) (data : Ptr) (isLocking : ℤ) (e : Engine) : Engine :=
  if isLocking = 0 ∨ e.state = .Idle then { e with theTask := (f.run data e.theTask).2 }
  else { e with pendingCustom := some (f, data) }

/-- Modelled from the spec: `setUpEndFuncArray` of the engine, whose source is missing:
"binds an array and resets its cursor to 0; fails if length is 0", a failure leaving the
engine unchanged. -/
def Engine.setUpEndFuncArray (arrayStart : Ptr) (nData : ℕ) (_isLocking : ℤ) (e : Engine) :
    ℤ × Engine :=
  if nData = 0 then (1, e)
  else (0, { e with endFuncArray := some (arrayStart, nData, 0) })

/-- Modelled from the spec: the methods of the engine class, whose source is missing, on the
engine of the data model.  Only Idle accepts a finite task or an infinite train, only
RunningInfiniteTrain accepts a stop; an invalid request changes nothing.  The callback
setters install their argument. -/
def specEngine : EngineOps Engine where
  DoTask e := if e.state = .Idle then { e with state := .RunningFiniteTask } else e
  DoTasks _ e := if e.state = .Idle then { e with state := .RunningFiniteTask } else e
  startInfiniteTrain e :=
    if e.state = .Idle then { e with state := .RunningInfiniteTrain } else e
  stopInfiniteTrain e :=
    if e.state = .RunningInfiniteTrain then { e with state := .Stopping } else e
  modDelay := Engine.modDelay
  modDur := Engine.modDur
  getpulseDelayUsecs e := e.theTask.pulseDelayUsecs
  getpulseDurUsecs e := e.theTask.pulseDurUsecs
  modCustom := Engine.modCustom
  setEndFunc f e := { e with endFunc := some f }
  setLowFunc f e := { e with loFunc := f }
  setHighFunc f e := { e with hiFunc := f }
  setUpEndFuncArray := Engine.setUpEndFuncArray

/-- Modelled from the spec: sample `index` of the cosine waveform,
`offset + scaling * cos (2 * pi * index / period)`, as a real number.  The generator
`pulsedThread::cosineDutyCycleArray` that computes it is missing from the sources. -/
noncomputable def cosineSample (period : ℕ) (offset scaling : ℚ) (index : ℕ) : ℝ :=
  (offset : ℝ) + (scaling : ℝ) * Real.cos (2 * Real.pi * (index : ℝ) / (period : ℝ))

/-- Modelled from the spec: the status of the generator `pulsedThread::cosineDutyCycleArray`,
which is missing from the sources: it "fails (validation error) if any resulting sample
falls outside [0,1]", the samples being those of index below the array size. -/
noncomputable def pulsedThread.cosineDutyCycleArray (_arrayData : Ptr) (arraySize period : ℕ)
    (offset scaling : ℚ) : ℤ :=
  @ite ℤ (∃ i, i < arraySize ∧
      (cosineSample period offset scaling i < 0 ∨ 1 < cosineSample period offset scaling i))
    (Classical.propDecidable _) 1 0

/-! ## Sample inputs -/

/-- An idle engine: one millisecond low, one millisecond high, ten pulses, callbacks from
another module, no end function. -/
def idleEngine : Engine where
  state := .Idle
  theTask :=
    { pulseDelayUsecs := 1000, pulseDurUsecs := 1000, nPulses := 10, doTask := 0,
      trainFrequency := 500, trainDutyCycle := 1 / 2, trainDuration := 1 / 50,
      taskData := 0, endFuncData := 0 }
  hiFunc := .foreign 1
  loFunc := .foreign 2
  endFunc := none
  endFuncArray := none
  pendingDelay := none
  pendingDur := none
  pendingCustom := none

/-- The same engine in the middle of a finite task. -/
def busyEngine : Engine := { idleEngine with state := .RunningFiniteTask }

/-- An idle engine whose delay and duration are 9202827 microseconds each. -/
def longPulseEngine : Engine :=
  { idleEngine with
    theTask := { idleEngine.theTask with pulseDelayUsecs := 9202827, pulseDurUsecs := 9202827 } }

/-- A Python array of three floats. -/
def floatArray : BufferObj where
  checkBuffer := true
  getBuffer := some { buf := 4096, len := 12, itemsize := 4, format := "f" }

/-- A Python array of three doubles. -/
def doubleArray : BufferObj where
  checkBuffer := true
  getBuffer := some { buf := 4096, len := 24, itemsize := 8, format := "d" }

/-! ## Rounding lemmas -/

/-- An integer rounds to itself. -/
theorem roundTiesEven_intCast (n : ℤ) : roundTiesEven (n : ℚ) = n := by
  simp [roundTiesEven]

/-- Rounding to the nearest integer moves a value by at most one half. -/
theorem abs_roundTiesEven_sub_le (q : ℚ) : |(roundTiesEven q : ℚ) - q| ≤ 1 / 2 := by
  have h1 : (⌊q⌋ : ℚ) ≤ q := Int.floor_le q
  have h2 : q < ⌊q⌋ + 1 := Int.lt_floor_add_one q
  unfold roundTiesEven
  split_ifs with ha hb hc
  · rw [abs_le]; constructor <;> linarith
  · rw [abs_le]; push_cast; constructor <;> linarith
  · have : q - ⌊q⌋ = 1 / 2 := le_antisymm (not_lt.1 hb) (not_lt.1 ha)
    rw [abs_le]; constructor <;> linarith
  · have : q - ⌊q⌋ = 1 / 2 := le_antisymm (not_lt.1 hb) (not_lt.1 ha)
    rw [abs_le]; push_cast; constructor <;> linarith

/-- An integer closer than one half to `x` is what `round` returns. -/
theorem cround_eq_of_abs_sub_lt (x : ℚ) (k : ℤ) (h : |x - k| < 1 / 2) : cround x = k := by
  rw [abs_lt] at h
  unfold cround
  split_ifs with h0
  · rw [Int.floor_eq_iff]; constructor <;> linarith
  · rw [Int.ceil_eq_iff]; constructor <;> linarith

/-- The function `round` fixes the integers. -/
theorem cround_intCast (k : ℤ) : cround (k : ℚ) = k :=
  cround_eq_of_abs_sub_lt _ k (by simp)

/-- The function `round` moves a value by at most one half. -/
theorem abs_cround_sub_le (x : ℚ) : |(cround x : ℚ) - x| ≤ 1 / 2 := by
  unfold cround
  split_ifs with h0
  · have h1 := Int.floor_le (x + 1 / 2)
    have h2 := Int.lt_floor_add_one (x + 1 / 2)
    rw [abs_le]; constructor <;> linarith
  · have h1 := Int.le_ceil (x - 1 / 2)
    have h2 := Int.ceil_lt_add_one (x - 1 / 2)
    rw [abs_le]; constructor <;> linarith

/-- Upper bound on the binade of a nonzero value below a power of two. -/
theorem log_lt_of_abs_lt {x : ℚ} (hx : x ≠ 0) {j : ℤ} (h : |x| < (2 : ℚ) ^ j) :
    Int.log 2 |x| < j := by
  have hpos : 0 < |x| := abs_pos.2 hx
  have := (Int.lt_zpow_iff_log_lt (b := 2) (by norm_num) hpos (x := j)).1 (by exact_mod_cast h)
  exact this

/-- Lower bound on the binade of a nonzero value above a power of two. -/
theorem le_log_of_le_abs {x : ℚ} (hx : x ≠ 0) {j : ℤ} (h : (2 : ℚ) ^ j ≤ |x|) :
    j ≤ Int.log 2 |x| := by
  have hpos : 0 < |x| := abs_pos.2 hx
  exact (Int.zpow_le_iff_le_log (b := 2) (by norm_num) hpos (x := j)).1 (by exact_mod_cast h)

/-- A significand of fewer than `p` bits times a power of two in range is not changed by
rounding. -/
theorem roundBinary_exact (p : ℕ) (emin : ℤ) (M E : ℤ) (hM : |M| < 2 ^ p)
    (hE : emin - p + 1 ≤ E) :
    roundBinary p emin (M * (2 : ℚ) ^ E) = M * (2 : ℚ) ^ E := by
  unfold roundBinary
  split_ifs with h0
  · exact h0.symm
  · have h2 : (0 : ℚ) < 2 := by norm_num
    have hlt : |(M : ℚ) * (2 : ℚ) ^ E| < (2 : ℚ) ^ ((p : ℤ) + E) := by
      rw [abs_mul, abs_of_pos (zpow_pos h2 E), zpow_add₀ (by norm_num : (2 : ℚ) ≠ 0)]
      apply mul_lt_mul_of_pos_right _ (zpow_pos h2 E)
      have : ((|M| : ℤ) : ℚ) < ((2 ^ p : ℤ) : ℚ) := by exact_mod_cast hM
      simpa using this
    have hlog := log_lt_of_abs_lt h0 hlt
    have hu : ulpExp p emin (M * (2 : ℚ) ^ E) ≤ E := by
      unfold ulpExp
      rcases max_cases (Int.log 2 |(M : ℚ) * (2 : ℚ) ^ E|) emin with ⟨h, _⟩ | ⟨h, _⟩ <;>
        rw [h] <;> omega
    obtain ⟨d, hd⟩ : ∃ d : ℕ, E = ulpExp p emin (M * (2 : ℚ) ^ E) + d :=
      ⟨(E - ulpExp p emin (M * (2 : ℚ) ^ E)).toNat, by omega⟩
    have hq : (M : ℚ) * (2 : ℚ) ^ E / (2 : ℚ) ^ ulpExp p emin (M * (2 : ℚ) ^ E)
        = ((M * 2 ^ d : ℤ) : ℚ) := by
      rw [div_eq_iff (zpow_ne_zero _ (by norm_num))]
      push_cast
      nth_rewrite 1 [hd]
      rw [zpow_add₀ (by norm_num : (2 : ℚ) ≠ 0), zpow_natCast]
      ring
    rw [hq, roundTiesEven_intCast, ← hq]
    field_simp

/-- The binade of a value between two consecutive powers of two. -/
theorem log_eq_of_bounds {x : ℚ} {j : ℤ} (hlo : (2 : ℚ) ^ j ≤ |x|)
    (hhi : |x| < (2 : ℚ) ^ (j + 1)) : Int.log 2 |x| = j := by
  have hx : x ≠ 0 := by
    intro h
    rw [h, abs_zero] at hlo
    exact absurd hlo (not_le.2 (zpow_pos (by norm_num) j))
  have h1 := le_log_of_le_abs hx hlo
  have h2 := log_lt_of_abs_lt hx hhi
  omega

/-- Rounding a value whose binade is known. -/
theorem roundBinary_eval (p : ℕ) (emin : ℤ) (x : ℚ) (j n : ℤ) (hlo : (2 : ℚ) ^ j ≤ |x|)
    (hhi : |x| < (2 : ℚ) ^ (j + 1)) (hj : emin ≤ j)
    (hn : roundTiesEven (x / (2 : ℚ) ^ (j - p + 1)) = n) :
    roundBinary p emin x = n * (2 : ℚ) ^ (j - p + 1) := by
  have hx : x ≠ 0 := by
    intro h
    rw [h, abs_zero] at hlo
    exact absurd hlo (not_le.2 (zpow_pos (by norm_num) j))
  have hu : ulpExp p emin x = j - p + 1 := by
    unfold ulpExp
    rw [log_eq_of_bounds hlo hhi, max_eq_left hj]
  unfold roundBinary
  rw [if_neg hx, hu, hn]

/-- Rounding moves a value by at most half a unit in the last place. -/
theorem abs_roundBinary_sub_le (p : ℕ) (emin : ℤ) (x : ℚ) :
    |roundBinary p emin x - x| ≤ (2 : ℚ) ^ ulpExp p emin x / 2 := by
  unfold roundBinary
  split_ifs with h0
  · rw [h0]; simp; positivity
  · generalize ulpExp p emin x = u
    have hpos : (0 : ℚ) < (2 : ℚ) ^ u := zpow_pos (by norm_num) _
    have h := abs_roundTiesEven_sub_le (x / (2 : ℚ) ^ u)
    have hx : (roundTiesEven (x / (2 : ℚ) ^ u) : ℚ) * (2 : ℚ) ^ u - x
        = ((roundTiesEven (x / (2 : ℚ) ^ u) : ℚ) - x / (2 : ℚ) ^ u) * (2 : ℚ) ^ u := by
      field_simp
    rw [hx, abs_mul, abs_of_pos hpos]
    calc |(roundTiesEven (x / (2 : ℚ) ^ u) : ℚ) - x / (2 : ℚ) ^ u| * (2 : ℚ) ^ u
        ≤ 1 / 2 * (2 : ℚ) ^ u := mul_le_mul_of_nonneg_right h hpos.le
      _ = (2 : ℚ) ^ u / 2 := by ring

/-- The unit in the last place of a value below `2 ^ j`. -/
theorem ulpExp_le_of_abs_lt (p : ℕ) (emin : ℤ) {x : ℚ} (hx : x ≠ 0) {j : ℤ}
    (h : |x| < (2 : ℚ) ^ j) (hj : emin < j) : ulpExp p emin x ≤ j - p := by
  have hlog := log_lt_of_abs_lt hx h
  unfold ulpExp
  rcases max_cases (Int.log 2 |x|) emin with ⟨h1, _⟩ | ⟨h1, _⟩ <;> rw [h1] <;> omega

/-- Rounding to the nearest integer yields the floor or its successor. -/
theorem roundTiesEven_mem (q : ℚ) : roundTiesEven q = ⌊q⌋ ∨ roundTiesEven q = ⌊q⌋ + 1 := by
  unfold roundTiesEven
  split_ifs <;> simp

/-- A rounded value is a significand of fewer than `p` bits times a power of two. -/
theorem roundBinary_mem (p : ℕ) (hp : 1 ≤ p) (emin : ℤ) (x : ℚ) :
    ∃ M E : ℤ, |M| < 2 ^ p ∧ emin - p + 1 ≤ E ∧ roundBinary p emin x = M * (2 : ℚ) ^ E := by
  by_cases h0 : x = 0
  · refine ⟨0, emin - p + 1, by simp, le_refl _, ?_⟩
    simp [roundBinary, h0]
  · have h2 : (0 : ℚ) < 2 := by norm_num
    have hu1 : emin - p + 1 ≤ ulpExp p emin x := by
      unfold ulpExp; have := le_max_right (Int.log 2 |x|) emin; omega
    have hu2 : Int.log 2 |x| + 1 ≤ ulpExp p emin x + p := by
      unfold ulpExp; have := le_max_left (Int.log 2 |x|) emin; omega
    have hpos : (0 : ℚ) < (2 : ℚ) ^ ulpExp p emin x := zpow_pos h2 _
    have hxlt : |x| < (2 : ℚ) ^ (ulpExp p emin x + p) :=
      lt_of_lt_of_le (by exact_mod_cast Int.lt_zpow_succ_log_self (b := 2) (by norm_num) |x|)
        (zpow_le_zpow_right₀ (by norm_num) hu2)
    have hy : |x / (2 : ℚ) ^ ulpExp p emin x| < ((2 ^ p : ℤ) : ℚ) := by
      rw [abs_div, abs_of_pos hpos, div_lt_iff₀ hpos]
      push_cast
      rw [← zpow_natCast, ← zpow_add₀ (by norm_num : (2 : ℚ) ≠ 0), add_comm]
      exact hxlt
    rw [abs_lt] at hy
    have hfl1 : ⌊x / (2 : ℚ) ^ ulpExp p emin x⌋ < 2 ^ p := by
      rw [Int.floor_lt]; exact hy.2
    have hfl2 : -(2 ^ p : ℤ) ≤ ⌊x / (2 : ℚ) ^ ulpExp p emin x⌋ := by
      rw [Int.le_floor]; push_cast; push_cast at hy; exact hy.1.le
    have hrepr : roundBinary p emin x
        = roundTiesEven (x / (2 : ℚ) ^ ulpExp p emin x) * (2 : ℚ) ^ ulpExp p emin x := by
      unfold roundBinary; rw [if_neg h0]
    have hone : (1 : ℤ) < 2 ^ p := by
      have : (2 : ℤ) ^ 1 ≤ 2 ^ p := pow_le_pow_right₀ (by norm_num) hp
      omega
    have hn : -(2 ^ p : ℤ) ≤ roundTiesEven (x / (2 : ℚ) ^ ulpExp p emin x)
        ∧ roundTiesEven (x / (2 : ℚ) ^ ulpExp p emin x) ≤ 2 ^ p := by
      rcases roundTiesEven_mem (x / (2 : ℚ) ^ ulpExp p emin x) with h | h <;> rw [h] <;>
        constructor <;> omega
    rcases eq_or_lt_of_le hn.2 with htop | htop
    · refine ⟨1, ulpExp p emin x + p, by simpa using hone, by omega, ?_⟩
      rw [hrepr, htop, zpow_add₀ (by norm_num : (2 : ℚ) ≠ 0), zpow_natCast]
      push_cast; ring
    · rcases eq_or_lt_of_le hn.1 with hbot | hbot
      · refine ⟨-1, ulpExp p emin x + p, by simpa using hone, by omega, ?_⟩
        rw [hrepr, ← hbot, zpow_add₀ (by norm_num : (2 : ℚ) ≠ 0), zpow_natCast]
        push_cast; ring
      · exact ⟨_, ulpExp p emin x, abs_lt.2 ⟨by omega, htop⟩, hu1, hrepr⟩


/-- The double nearest to the decimal `1e-06`. -/
theorem double_1e_06 : roundBinary64 (1 / 1000000) = 4722366482869645 * (2 : ℚ) ^ (-72 : ℤ) := by
  have := roundBinary_eval 53 (-1022) (1 / 1000000) (-20) 4722366482869645
    (by norm_num [abs_of_pos]) (by norm_num [abs_of_pos]) (by norm_num)
    (by norm_num [roundTiesEven])
  simpa [roundBinary64] using this

/-- The float `(float) 1e-06` is `8796093 * 2 ^ (-43)`, a little below a millionth. -/
theorem float_1e_06_eq : float_1e_06 = 8796093 / 2 ^ 43 := by
  unfold float_1e_06
  rw [double_1e_06]
  have := roundBinary_eval 24 (-126) (4722366482869645 * (2 : ℚ) ^ (-72 : ℤ)) (-20) 8796093
    (by norm_num [abs_of_pos]) (by norm_num [abs_of_pos]) (by norm_num)
    (by norm_num [roundTiesEven])
  rw [roundBinary32, this]
  norm_num

/-- The double product of `1e06` and a float significand times a power of two is exact. -/
theorem roundBinary64_scaled (M E : ℤ) (hM : |M| < 2 ^ 24) (hE : -149 ≤ E) :
    roundBinary64 (1000000 * (M * (2 : ℚ) ^ E)) = 1000000 * (M * (2 : ℚ) ^ E) := by
  have hrw : (1000000 : ℚ) * (M * (2 : ℚ) ^ E) = ((15625 * M : ℤ) : ℚ) * (2 : ℚ) ^ (E + 6) := by
    rw [zpow_add₀ (by norm_num : (2 : ℚ) ≠ 0)]
    push_cast
    norm_num
    ring
  rw [hrw]
  refine roundBinary_exact 53 (-1022) (15625 * M) (E + 6) ?_ (by omega)
  rw [abs_mul]
  have : |(15625 : ℤ)| = 15625 := by norm_num
  rw [this]
  have h24 : (2 : ℤ) ^ 24 = 16777216 := by norm_num
  have h53 : (2 : ℤ) ^ 53 = 9007199254740992 := by norm_num
  rw [h24] at hM
  rw [h53]
  omega

theorem roundBinary64_scaled_of_isBinary32 {s : ℚ} (hs : IsBinary32 s) :
    roundBinary64 (1000000 * s) = 1000000 * s := by
  obtain ⟨m, e, hm, he, _, rfl⟩ := hs
  exact roundBinary64_scaled m e hm he

/-- Narrowing to `float` leaves a float as it is. -/
theorem roundBinary32_of_isBinary32 {s : ℚ} (hs : IsBinary32 s) : roundBinary32 s = s := by
  obtain ⟨m, e, hm, he, _, rfl⟩ := hs
  exact roundBinary_exact 24 (-126) m e hm (by omega)

/-- Narrowing to `float` twice is narrowing once. -/
theorem roundBinary32_idem (x : ℚ) : roundBinary32 (roundBinary32 x) = roundBinary32 x := by
  obtain ⟨M, E, hM, hE, hrep⟩ := roundBinary_mem 24 (by norm_num) (-126) x
  simp only [roundBinary32]
  rw [hrep]
  exact roundBinary_exact 24 (-126) M E hM hE

/-- The double product of `1e06` and any narrowed value is exact. -/
theorem roundBinary64_scaled_float (x : ℚ) :
    roundBinary64 (1000000 * roundBinary32 x) = 1000000 * roundBinary32 x := by
  obtain ⟨M, E, hM, hE, hrep⟩ := roundBinary_mem 24 (by norm_num) (-126) x
  rw [roundBinary32, hrep]
  exact roundBinary64_scaled M E hM (by omega)

/-- Rounding keeps a value that is not positive from becoming positive. -/
theorem roundBinary_nonpos (p : ℕ) (emin : ℤ) {x : ℚ} (hx : x ≤ 0) :
    roundBinary p emin x ≤ 0 := by
  unfold roundBinary
  split_ifs with h0
  · exact le_refl _
  · have hneg : x < 0 := lt_of_le_of_ne hx h0
    have hpos : (0 : ℚ) < (2 : ℚ) ^ ulpExp p emin x := zpow_pos (by norm_num) _
    have hq : x / (2 : ℚ) ^ ulpExp p emin x < 0 := div_neg_of_neg_of_pos hneg hpos
    have hfl : ⌊x / (2 : ℚ) ^ ulpExp p emin x⌋ < 0 := by
      rw [Int.floor_lt]; exact_mod_cast hq
    have hr : roundTiesEven (x / (2 : ℚ) ^ ulpExp p emin x) ≤ 0 := by
      rcases roundTiesEven_mem (x / (2 : ℚ) ^ ulpExp p emin x) with h | h <;> rw [h] <;> omega
    have hrq : (roundTiesEven (x / (2 : ℚ) ^ ulpExp p emin x) : ℚ) ≤ 0 := by exact_mod_cast hr
    exact mul_nonpos_of_nonpos_of_nonneg hrq hpos.le

/-- Rounding keeps a value that is not negative from becoming negative. -/
theorem roundBinary_nonneg (p : ℕ) (emin : ℤ) {x : ℚ} (hx : 0 ≤ x) :
    0 ≤ roundBinary p emin x := by
  unfold roundBinary
  split_ifs with h0
  · exact le_refl _
  · have hpos : (0 : ℚ) < (2 : ℚ) ^ ulpExp p emin x := zpow_pos (by norm_num) _
    have hq : 0 ≤ x / (2 : ℚ) ^ ulpExp p emin x := div_nonneg hx hpos.le
    have hfl : 0 ≤ ⌊x / (2 : ℚ) ^ ulpExp p emin x⌋ := Int.floor_nonneg.2 hq
    have hr : 0 ≤ roundTiesEven (x / (2 : ℚ) ^ ulpExp p emin x) := by
      rcases roundTiesEven_mem (x / (2 : ℚ) ^ ulpExp p emin x) with h | h <;> rw [h] <;> omega
    have hrq : (0 : ℚ) ≤ (roundTiesEven (x / (2 : ℚ) ^ ulpExp p emin x) : ℚ) := by
      exact_mod_cast hr
    exact mul_nonneg hrq hpos.le

/-- A value less than half above an integer does not round beyond it. -/
theorem roundTiesEven_le_of_lt (y : ℚ) (n : ℤ) (h : y < n + 1 / 2) : roundTiesEven y ≤ n := by
  have h1 := abs_roundTiesEven_sub_le y
  rw [abs_le] at h1
  have h2 : (roundTiesEven y : ℚ) < ((n + 1 : ℤ) : ℚ) := by push_cast; linarith
  have h3 : roundTiesEven y < n + 1 := by exact_mod_cast h2
  omega

/-- Narrowing a value below `2 ^ j` moves it by at most `2 ^ (j - 25)`. -/
theorem abs_roundBinary32_sub_le {x : ℚ} {j : ℤ} (h : |x| < (2 : ℚ) ^ j) (hj : -126 < j) :
    |roundBinary32 x - x| ≤ (2 : ℚ) ^ (j - 25) := by
  by_cases hx : x = 0
  · rw [hx]; simp [roundBinary32, roundBinary]; positivity
  · have hu := ulpExp_le_of_abs_lt 24 (-126) hx h hj
    have herr := abs_roundBinary_sub_le 24 (-126) x
    have hpow : (2 : ℚ) ^ ulpExp 24 (-126) x ≤ (2 : ℚ) ^ (j - 24) :=
      zpow_le_zpow_right₀ (by norm_num) (by push_cast at hu; omega)
    have h25 : (2 : ℚ) ^ (j - 24) / 2 = (2 : ℚ) ^ (j - 25) := by
      have : j - 24 = (j - 25) + 1 := by ring
      rw [this, zpow_add₀ (by norm_num : (2 : ℚ) ≠ 0)]
      norm_num
    calc |roundBinary32 x - x| ≤ (2 : ℚ) ^ ulpExp 24 (-126) x / 2 := herr
      _ ≤ (2 : ℚ) ^ (j - 24) / 2 := by gcongr
      _ = (2 : ℚ) ^ (j - 25) := h25

/-- A seconds value below `2 ^ 32` microseconds narrows to a float that is still below
`2 ^ 32` microseconds by more than a half. -/
theorem scaled_narrow_lt {s : ℚ} (h0 : 0 ≤ s) (hlt : 1000000 * s < 2 ^ 32) :
    1000000 * roundBinary32 s + 1 / 2 < 2 ^ 32 := by
  by_cases hsmall : s < 4096
  · have habs : |s| < (2 : ℚ) ^ (12 : ℤ) := by rw [abs_of_nonneg h0]; norm_num; exact hsmall
    have herr := abs_roundBinary32_sub_le habs (by norm_num)
    rw [abs_le] at herr
    norm_num at herr
    norm_num
    linarith [herr.2]
  · rw [not_lt] at hsmall
    have hlo : (2 : ℚ) ^ (12 : ℤ) ≤ |s| := by rw [abs_of_nonneg h0]; norm_num; exact hsmall
    have hhi : |s| < (2 : ℚ) ^ ((12 : ℤ) + 1) := by
      rw [abs_of_nonneg h0]; norm_num at hlt ⊢; linarith
    have hval := roundBinary_eval 24 (-126) s 12
      (roundTiesEven (s / (2 : ℚ) ^ ((12 : ℤ) - (24 : ℕ) + 1))) hlo hhi (by norm_num) rfl
    have hy : s / (2 : ℚ) ^ ((12 : ℤ) - (24 : ℕ) + 1) < ((8796093 : ℤ) : ℚ) + 1 / 2 := by
      norm_num at hlt ⊢
      linarith
    have hr := roundTiesEven_le_of_lt _ 8796093 hy
    have hrq : (roundTiesEven (s / (2 : ℚ) ^ ((12 : ℤ) - (24 : ℕ) + 1)) : ℚ) ≤ 8796093 := by
      exact_mod_cast hr
    rw [roundBinary32, hval]
    norm_num at hrq ⊢
    linarith

/-- The count for a narrowed seconds value below `2 ^ 32` microseconds fits the cast. -/
theorem cround_scaled_narrow_lt {s : ℚ} (h0 : 0 ≤ s) (hlt : 1000000 * s < 2 ^ 32) :
    0 ≤ cround (1000000 * roundBinary32 s) ∧ cround (1000000 * roundBinary32 s) < 2 ^ 32 := by
  have hf : 0 ≤ roundBinary32 s := roundBinary_nonneg 24 (-126) h0
  have hnn : (0 : ℚ) ≤ 1000000 * roundBinary32 s := by positivity
  have hb := scaled_narrow_lt h0 hlt
  unfold cround
  rw [if_pos hnn]
  constructor
  · exact Int.floor_nonneg.2 (by linarith)
  · rw [Int.floor_lt]; push_cast; exact hb

/-- The seconds reported for `k` microseconds, `k` at most 9174000, convert back to `k`: the
float product is off by at most half a place, which is too little to reach the next count. -/
theorem roundtrip_core (k : ℕ) (hk : k ≤ 9174000) :
    cround (roundBinary64 (1000000 *
        roundBinary32 (roundBinary32 (float_1e_06 * roundBinary32 (k : ℚ)))))
      = (k : ℤ) := by
  rw [roundBinary32_idem]
  have hkq : (k : ℚ) ≤ 9174000 := by exact_mod_cast hk
  have hk0 : (0 : ℚ) ≤ k := Nat.cast_nonneg k
  -- the count converts to float exactly
  have hfk : roundBinary32 (k : ℚ) = k := by
    have := roundBinary_exact 24 (-126) (k : ℤ) 0 (by
      rw [abs_of_nonneg (by positivity)]
      have : (k : ℤ) ≤ 9174000 := by exact_mod_cast hk
      norm_num; omega) (by norm_num)
    simpa [roundBinary32] using this
  rw [hfk, float_1e_06_eq]
  set x : ℚ := 8796093 / 2 ^ 43 * (k : ℚ) with hx
  -- the float product is a float, so the double product is exact
  obtain ⟨M, E, hM, hE, hrep⟩ := roundBinary_mem 24 (by norm_num) (-126) x
  have hexact : roundBinary64 (1000000 * roundBinary32 x) = 1000000 * roundBinary32 x := by
    rw [roundBinary32, hrep]
    exact roundBinary64_scaled M E hM (by omega)
  rw [hexact]
  apply cround_eq_of_abs_sub_lt
  rw [Int.cast_natCast]
  by_cases hz : x = 0
  · have hk' : (k : ℚ) = 0 := by
      rw [hx] at hz
      have : (8796093 / 2 ^ 43 : ℚ) ≠ 0 := by norm_num
      exact (mul_eq_zero.1 hz).resolve_left this
    rw [hz, hk']
    simp [roundBinary32, roundBinary]
  · have hxlt : |x| < (2 : ℚ) ^ (4 : ℤ) := by
      rw [abs_of_nonneg (by rw [hx]; positivity), hx]
      norm_num
      linarith
    have hu := ulpExp_le_of_abs_lt 24 (-126) hz hxlt (by norm_num)
    have herr := abs_roundBinary_sub_le 24 (-126) x
    have hpow : (2 : ℚ) ^ ulpExp 24 (-126) x ≤ (2 : ℚ) ^ (-20 : ℤ) :=
      zpow_le_zpow_right₀ (by norm_num) (by push_cast at hu; omega)
    have herr' : |roundBinary32 x - x| ≤ (2 : ℚ) ^ (-20 : ℤ) / 2 :=
      herr.trans (by gcongr)
    rw [abs_le] at herr'
    norm_num at herr'
    rw [abs_lt]
    rw [hx] at herr' ⊢
    constructor <;> norm_num at herr' ⊢ <;> linarith [herr'.1, herr'.2]

/-! ## The bindings against the specification -/

/-- C1, as the code has it: `pulsedThread_SetPythonTaskObj` hands the function that invokes
`LoFunc` to `setLowFunc` and to `setHighFunc` alike.  After the call the high-phase callback
of the engine is the one that invokes `LoFunc`, it is the same function as the low-phase
callback, and it is not the function that invokes `HiFunc`. -/
theorem SetPythonTaskObj_high_is_LoFunc {σ : Type} (eng : EngineOps σ) (s : σ) (st : Engine)
    (PyObjPtr : Ptr) (isLocking : ℤ) (threadsInitialized : Bool) :
    (pulsedThread_SetPythonTaskObj eng (some (PyObjPtr, isLocking)) threadsInitialized s).calls.take 3
        = [.setLowFunc .RunPythonLoFunc, .setHighFunc .RunPythonLoFunc,
           .modCustom .modTaskObj PyObjPtr isLocking]
      ∧ (pulsedThread_SetPythonTaskObj specEngine (some (PyObjPtr, isLocking))
          threadsInitialized st).engine.hiFunc = .RunPythonLoFunc
      ∧ (pulsedThread_SetPythonTaskObj specEngine (some (PyObjPtr, isLocking))
          threadsInitialized st).engine.loFunc = .RunPythonLoFunc
      ∧ PhaseFunc.run (pulsedThread_SetPythonTaskObj specEngine (some (PyObjPtr, isLocking))
          threadsInitialized st).engine.hiFunc PyObjPtr
          = some { target := PyObjPtr, method := "LoFunc", format := none, args := [] }
      ∧ pulsedThread_RunPythonLoFunc PyObjPtr ≠ pulsedThread_RunPythonHiFunc PyObjPtr := by
  refine ⟨?_, ?_, ?_, ?_, ?_⟩
  · cases threadsInitialized <;> rfl
  · simp [pulsedThread_SetPythonTaskObj, specEngine, Engine.modCustom]; split_ifs <;> rfl
  · simp [pulsedThread_SetPythonTaskObj, specEngine, Engine.modCustom]; split_ifs <;> rfl
  · have h : (pulsedThread_SetPythonTaskObj specEngine (some (PyObjPtr, isLocking))
        threadsInitialized st).engine.hiFunc = .RunPythonLoFunc := by
      simp [pulsedThread_SetPythonTaskObj, specEngine, Engine.modCustom]; split_ifs <;> rfl
    rw [h]; rfl
  · simp [pulsedThread_RunPythonLoFunc, pulsedThread_RunPythonHiFunc]

/-- C2, as the code has it: on a float array of three samples `pulsedThread_setArrayFunc`
succeeds, and `endFuncType` 0 installs the end function that sets the duty cycle from the
array while `endFuncType` 1 installs the one that sets the frequency. -/
theorem setArrayFunc_type_codes_swapped :
    (pulsedThread_setArrayFunc specEngine (some (floatArray, 0, 0)) idleEngine).result = .none
      ∧ (pulsedThread_setArrayFunc specEngine (some (floatArray, 0, 0)) idleEngine).engine.endFunc
          = some .pulsedThreadDutyCycleFromArrayEndFunc
      ∧ (pulsedThread_setArrayFunc specEngine (some (floatArray, 1, 0)) idleEngine).result = .none
      ∧ (pulsedThread_setArrayFunc specEngine (some (floatArray, 1, 0)) idleEngine).engine.endFunc
          = some .pulsedThreadFreqFromArrayEndFunc := by
  refine ⟨?_, ?_, ?_, ?_⟩ <;> decide

/-- The outcome of `pulsedThread_modDelay` once the converted count is known. -/
theorem modDelay_of_usecs {σ : Type} {ub : ℤ → ℕ} (eng : EngineOps σ) (st : σ) {s : ℚ}
    {k : ℕ} (h : castUInt ub (cround (roundBinary64 (1000000 * roundBinary32 s))) = k) :
    pulsedThread_modDelay ub eng (some s) st
      = { result := .int (eng.modDelay k st).1, engine := (eng.modDelay k st).2,
          calls := [.modDelay k] } := by
  simp only [pulsedThread_modDelay, h]

/-- The outcome of `pulsedThread_modDur` once the converted count is known. -/
theorem modDur_of_usecs {σ : Type} {ub : ℤ → ℕ} (eng : EngineOps σ) (st : σ) {s : ℚ}
    {k : ℕ} (h : castUInt ub (cround (roundBinary64 (1000000 * roundBinary32 s))) = k) :
    pulsedThread_modDur ub eng (some s) st
      = { result := .int (eng.modDur k st).1, engine := (eng.modDur k st).2,
          calls := [.modDur k] } := by
  simp only [pulsedThread_modDur, h]

/-- The float `-2 ^ (-22)` seconds, a quarter of a microsecond below zero, scales to a double
that `round` takes to zero. -/
theorem quarter_usec_below_zero :
    IsBinary32 (-(1 / 4194304)) ∧
      cround (roundBinary64 (1000000 * roundBinary32 (-(1 / 4194304)))) = 0 := by
  have hs : IsBinary32 (-(1 / 4194304)) :=
    ⟨-1, -22, by norm_num, by norm_num, by norm_num, by norm_num⟩
  refine ⟨hs, ?_⟩
  rw [roundBinary32_of_isBinary32 hs, roundBinary64_scaled_of_isBinary32 hs]
  exact cround_eq_of_abs_sub_lt _ 0 (by norm_num [abs_lt])

/-- C4, refuted as stated: for the negative float `-2 ^ (-22)` seconds neither setter rejects
the request.  `pulsedThread_modDelay` hands the delay 0 to the engine and returns the
engine's status 0, and the delay of the engine changes from 1000 to 0 microseconds;
`pulsedThread_modDur` does the same to the duration. -/
theorem modDelay_modDur_negative_not_rejected :
    (-(1 / 4194304) : ℚ) < 0
      ∧ (pulsedThread_modDelay (fun _ => 0) specEngine (some (-(1 / 4194304))) idleEngine).calls
          = [.modDelay 0]
      ∧ (pulsedThread_modDelay (fun _ => 0) specEngine (some (-(1 / 4194304))) idleEngine).result
          = .int 0
      ∧ idleEngine.theTask.pulseDelayUsecs = 1000
      ∧ (pulsedThread_modDelay (fun _ => 0) specEngine (some (-(1 / 4194304)))
          idleEngine).engine.theTask.pulseDelayUsecs = 0
      ∧ (pulsedThread_modDur (fun _ => 0) specEngine (some (-(1 / 4194304))) idleEngine).calls
          = [.modDur 0]
      ∧ (pulsedThread_modDur (fun _ => 0) specEngine (some (-(1 / 4194304))) idleEngine).result
          = .int 0
      ∧ idleEngine.theTask.pulseDurUsecs = 1000
      ∧ (pulsedThread_modDur (fun _ => 0) specEngine (some (-(1 / 4194304)))
          idleEngine).engine.theTask.pulseDurUsecs = 0 := by
  have hk : castUInt (fun _ => 0)
      (cround (roundBinary64 (1000000 * roundBinary32 (-(1 / 4194304))))) = 0 := by
    rw [quarter_usec_below_zero.2]; rfl
  rw [modDelay_of_usecs specEngine idleEngine hk, modDur_of_usecs specEngine idleEngine hk]
  exact ⟨by norm_num, rfl, rfl, rfl, rfl, rfl, rfl, rfl, rfl⟩

/-- C4, amended: for a negative seconds value `s` the setters check nothing themselves.
Each makes exactly one engine call, `modDelay` or `modDur`, with the argument
`(unsigned int) round (1e06 * f)`, where `f` is `s` narrowed to `float`, and returns the
status of the engine.  That argument is 0 when `f` is above minus half a microsecond, and
otherwise what the machine makes of a cast out of range. -/
theorem modDelay_modDur_negative_forwarded {σ : Type} (ub : ℤ → ℕ) (eng : EngineOps σ)
    (st : σ) (s : ℚ) (hneg : s < 0) :
    pulsedThread_modDelay ub eng (some s) st
        = { result := .int
              (eng.modDelay (castUInt ub (cround (1000000 * roundBinary32 s))) st).1,
            engine := (eng.modDelay (castUInt ub (cround (1000000 * roundBinary32 s))) st).2,
            calls := [.modDelay (castUInt ub (cround (1000000 * roundBinary32 s)))] }
      ∧ pulsedThread_modDur ub eng (some s) st
        = { result := .int
              (eng.modDur (castUInt ub (cround (1000000 * roundBinary32 s))) st).1,
            engine := (eng.modDur (castUInt ub (cround (1000000 * roundBinary32 s))) st).2,
            calls := [.modDur (castUInt ub (cround (1000000 * roundBinary32 s)))] }
      ∧ castUInt ub (cround (1000000 * roundBinary32 s))
        = if -(1 / 2000000) < roundBinary32 s then 0
          else ub (cround (1000000 * roundBinary32 s)) % 2 ^ 32 := by
  have hx := roundBinary64_scaled_float s
  have hf : roundBinary32 s ≤ 0 := roundBinary_nonpos 24 (-126) hneg.le
  refine ⟨modDelay_of_usecs eng st (by rw [hx]), modDur_of_usecs eng st (by rw [hx]), ?_⟩
  split_ifs with hsmall
  · have h0 : cround (1000000 * roundBinary32 s) = 0 :=
      cround_eq_of_abs_sub_lt _ 0 (by rw [abs_lt]; constructor <;> norm_num <;> linarith)
    rw [h0]; simp [castUInt]
  · have hle : cround (1000000 * roundBinary32 s) < 0 := by
      rw [not_lt] at hsmall
      have hxneg : ¬ (0 : ℚ) ≤ 1000000 * roundBinary32 s := by linarith
      unfold cround
      rw [if_neg hxneg]
      have : ⌈1000000 * roundBinary32 s - 1 / 2⌉ ≤ -1 := by
        rw [Int.ceil_le]; push_cast; linarith
      omega
    unfold castUInt
    rw [if_neg (by omega)]

/-- Witness for the amended C4 at the float `-2 ^ (-22)` seconds on the idle sample
engine. -/
theorem modDelay_modDur_negative_forwarded_witness :
    (-(1 / 4194304) : ℚ) < 0
      ∧ (pulsedThread_modDelay (fun _ => 0) specEngine (some (-(1 / 4194304))) idleEngine).calls
        = [.modDelay
            (castUInt (fun _ => 0) (cround (1000000 * roundBinary32 (-(1 / 4194304)))))] :=
  ⟨by norm_num,
    congrArg Outcome.calls
      (modDelay_modDur_negative_forwarded (fun _ => 0) specEngine idleEngine (-(1 / 4194304))
        (by norm_num)).1⟩

/-- C5, refuted as stated: a task-control call made in a state where the operation is
invalid changes nothing in the engine and comes back with the very result of a valid call.
So does `doTask` and `doTasks` and `startTrain` on a busy engine, and `stopTrain` on an idle
one. -/
theorem task_control_failure_not_reported :
    busyEngine.state ≠ .Idle ∧ idleEngine.state ≠ .RunningInfiniteTrain
      ∧ (pulsedThread_doTask specEngine busyEngine).engine = busyEngine
      ∧ (pulsedThread_doTask specEngine idleEngine).engine.state = .RunningFiniteTask
      ∧ (pulsedThread_doTask specEngine busyEngine).result
          = (pulsedThread_doTask specEngine idleEngine).result
      ∧ (pulsedThread_doTasks specEngine (some 3) busyEngine).engine = busyEngine
      ∧ (pulsedThread_doTasks specEngine (some 3) busyEngine).result
          = (pulsedThread_doTasks specEngine (some 3) idleEngine).result
      ∧ (pulsedThread_startTrain specEngine busyEngine).engine = busyEngine
      ∧ (pulsedThread_startTrain specEngine busyEngine).result
          = (pulsedThread_startTrain specEngine idleEngine).result
      ∧ (pulsedThread_stopTrain specEngine idleEngine).engine = idleEngine
      ∧ (pulsedThread_stopTrain specEngine idleEngine).result
          = (pulsedThread_stopTrain specEngine
              { idleEngine with state := .RunningInfiniteTrain }).result := by
  refine ⟨by decide, by decide, ?_, ?_, ?_, ?_, ?_, ?_, ?_, ?_, ?_⟩ <;>
    simp [pulsedThread_doTask, pulsedThread_doTasks, pulsedThread_startTrain,
      pulsedThread_stopTrain, specEngine, busyEngine, idleEngine]

/-- C5, amended: whatever the engine and its state, each task-control binding hands its
request to the engine, in exactly one call of the matching engine method, and returns `None`:
`pulsedThread_doTask`, `pulsedThread_startTrain` and `pulsedThread_stopTrain` always, and
`pulsedThread_doTasks` once its arguments are parsed.  The engine after the call is what
that method leaves, and nothing of it reaches the caller. -/
theorem task_control_returns_None {σ : Type} (eng : EngineOps σ) (st : σ) (nTimes : ℤ) :
    pulsedThread_doTask eng st
        = { result := .none, engine := eng.DoTask st, calls := [.DoTask] }
      ∧ pulsedThread_doTasks eng (some nTimes) st
        = { result := .none, engine := eng.DoTasks nTimes st, calls := [.DoTasks nTimes] }
      ∧ pulsedThread_startTrain eng st
        = { result := .none, engine := eng.startInfiniteTrain st,
            calls := [.startInfiniteTrain] }
      ∧ pulsedThread_stopTrain eng st
        = { result := .none, engine := eng.stopInfiniteTrain st,
            calls := [.stopInfiniteTrain] } :=
  ⟨rfl, rfl, rfl, rfl⟩

/-- C6: when `pulsedThread_setArrayFunc` returns an error, `setEndFunc` was not called, and
on an engine whose `setUpEndFuncArray` leaves the installed end function alone that function
is the one installed before the call.  Either no engine call was made at all, or the buffer
holds floats and the one call made is the `setUpEndFuncArray` that reported a non-zero
status. -/
theorem setArrayFunc_error_installs_nothing {σ : Type} (eng : EngineOps σ)
    (installed : σ → Option EndFunc)
    (hframe : ∀ a n l s, installed (eng.setUpEndFuncArray a n l s).2 = installed s)
    (args : Option (BufferObj × ℤ × ℤ)) (st : σ)
    (herr : (pulsedThread_setArrayFunc eng args st).result.isError = true) :
    (∀ f, Call.setEndFunc f ∉ (pulsedThread_setArrayFunc eng args st).calls)
      ∧ installed (pulsedThread_setArrayFunc eng args st).engine = installed st
      ∧ (((pulsedThread_setArrayFunc eng args st).calls = []
            ∧ (pulsedThread_setArrayFunc eng args st).engine = st)
          ∨ ∃ bufferObj endFuncType isLocking buffer,
              args = some (bufferObj, endFuncType, isLocking)
                ∧ bufferObj.getBuffer = some buffer ∧ buffer.format = "f"
                ∧ (eng.setUpEndFuncArray buffer.buf
                    (arrayLength buffer.len buffer.itemsize) isLocking st).1 ≠ 0
                ∧ (pulsedThread_setArrayFunc eng args st).calls
                  = [.setUpEndFuncArray buffer.buf
                      (arrayLength buffer.len buffer.itemsize) isLocking]) := by
  unfold pulsedThread_setArrayFunc at herr ⊢
  rcases args with _ | ⟨bufferObj, endFuncType, isLocking⟩
  · simp
  · dsimp only at herr ⊢
    by_cases hc : bufferObj.checkBuffer = false
    · simp [hc]
    · rw [if_neg hc] at herr ⊢
      rcases hb : bufferObj.getBuffer with _ | buffer
      · simp
      · rw [hb] at herr
        dsimp only at herr ⊢
        by_cases hf : buffer.format ≠ "f"
        · simp [hf]
        · rw [if_neg hf] at herr ⊢
          by_cases he : (eng.setUpEndFuncArray buffer.buf
              (arrayLength buffer.len buffer.itemsize) isLocking st).1 ≠ 0
          · rw [if_pos he]
            refine ⟨by simp, hframe _ _ _ _, Or.inr ?_⟩
            exact ⟨bufferObj, endFuncType, isLocking, buffer, rfl, hb, not_not.1 hf, he, rfl⟩
          · rw [if_neg he] at herr
            by_cases ht : endFuncType = 0
            · rw [if_pos ht] at herr; simp [PyResult.isError] at herr
            · rw [if_neg ht] at herr; simp [PyResult.isError] at herr

/-- Witness for C6: an array of doubles is refused on the sample engine, whose
`setUpEndFuncArray` only binds the array. -/
theorem setArrayFunc_error_installs_nothing_witness :
    (pulsedThread_setArrayFunc specEngine (some (doubleArray, 0, 0)) idleEngine).result.isError
        = true
      ∧ (pulsedThread_setArrayFunc specEngine (some (doubleArray, 0, 0)) idleEngine).engine.endFunc
        = idleEngine.endFunc :=
  ⟨by decide,
    (setArrayFunc_error_installs_nothing specEngine Engine.endFunc
      (by intro a n l s; simp only [specEngine, Engine.setUpEndFuncArray]; split_ifs <;> rfl)
      (some (doubleArray, 0, 0)) idleEngine (by decide)).2.1⟩

/-- The seconds value `16 + 3 * 2 ^ (-21)`, a double that is no float, narrows to the float
`16 + 2 ^ (-19)`, which scales to 16000002 microseconds. -/
theorem sixteen_seconds_and_a_bit :
    roundBinary32 (33554435 / 2097152) = 8388609 / 524288
      ∧ cround (roundBinary64 (1000000 * roundBinary32 (33554435 / 2097152))) = 16000002 := by
  have hf : roundBinary32 (33554435 / 2097152) = 8388609 / 524288 := by
    have := roundBinary_eval 24 (-126) (33554435 / 2097152) 4 8388609
      (by norm_num [abs_of_pos]) (by norm_num [abs_of_pos]) (by norm_num)
      (by norm_num [roundTiesEven])
    rw [roundBinary32, this]
    norm_num
  refine ⟨hf, ?_⟩
  rw [roundBinary64_scaled_float, hf]
  exact cround_eq_of_abs_sub_lt _ 16000002 (by norm_num [abs_lt])

/-- C7, refuted as stated: the seconds value `16 + 3 * 2 ^ (-21)` is not negative and is below
`2 ^ 32` microseconds, its nearest microsecond count is 16000001, yet both setters hand the
engine 16000002, which is more than half a microsecond away. -/
theorem modDelay_modDur_narrow_seconds_to_float :
    (0 : ℚ) ≤ 33554435 / 2097152 ∧ (1000000 : ℚ) * (33554435 / 2097152) < 2 ^ 32
      ∧ cround (1000000 * (33554435 / 2097152)) = 16000001
      ∧ (pulsedThread_modDelay (fun _ => 0) specEngine (some (33554435 / 2097152))
          idleEngine).calls = [.modDelay 16000002]
      ∧ (pulsedThread_modDur (fun _ => 0) specEngine (some (33554435 / 2097152))
          idleEngine).calls = [.modDur 16000002]
      ∧ ¬ |(16000002 : ℚ) - 1000000 * (33554435 / 2097152)| ≤ 1 / 2 := by
  have hk : castUInt (fun _ => 0)
      (cround (roundBinary64 (1000000 * roundBinary32 (33554435 / 2097152)))) = 16000002 := by
    rw [sixteen_seconds_and_a_bit.2]; rfl
  refine ⟨by norm_num, by norm_num, ?_, ?_, ?_, ?_⟩
  · exact cround_eq_of_abs_sub_lt _ 16000001 (by norm_num [abs_lt])
  · rw [modDelay_of_usecs specEngine idleEngine hk]
  · rw [modDur_of_usecs specEngine idleEngine hk]
  · rw [abs_le]; norm_num

/-- C7, amended: for a seconds value `s` that is not negative and whose microseconds
`1e06 * s` stay below `2 ^ 32`, both setters hand the engine one count `k` below `2 ^ 32`, the
integer nearest to `1e06 * f` with a half rounded up, where `f` is `s` narrowed to `float`,
and return the status of the engine; `f` is `s` when `s` is a float.  For `s` below 8 seconds
`k` is within three quarters of a microsecond of `s`, and a value within a quarter of a
microsecond of `j` microseconds is handed over as `j`; a float that is exactly `j`
microseconds is handed over as `j`. -/
theorem modDelay_modDur_nearest_usec {σ : Type} (ub : ℤ → ℕ) (eng : EngineOps σ) (st : σ)
    (s : ℚ) (h0 : 0 ≤ s) (hlt : 1000000 * s < 2 ^ 32) :
    ∃ k : ℕ,
      pulsedThread_modDelay ub eng (some s) st
          = { result := .int (eng.modDelay k st).1, engine := (eng.modDelay k st).2,
              calls := [.modDelay k] }
        ∧ pulsedThread_modDur ub eng (some s) st
          = { result := .int (eng.modDur k st).1, engine := (eng.modDur k st).2,
              calls := [.modDur k] }
        ∧ (|(k : ℚ) - 1000000 * roundBinary32 s| < 1 / 2
            ∨ (k : ℚ) = 1000000 * roundBinary32 s + 1 / 2)
        ∧ k < 2 ^ 32
        ∧ (IsBinary32 s → roundBinary32 s = s)
        ∧ (s < 8 → |(k : ℚ) - 1000000 * s| < 3 / 4)
        ∧ (s < 8 → ∀ j : ℕ, |1000000 * s - (j : ℚ)| ≤ 1 / 4 → k = j)
        ∧ (IsBinary32 s → ∀ j : ℕ, s = (j : ℚ) / 1000000 → k = j) := by
  have hrange := cround_scaled_narrow_lt h0 hlt
  have hf : 0 ≤ roundBinary32 s := roundBinary_nonneg 24 (-126) h0
  have hnn : (0 : ℚ) ≤ 1000000 * roundBinary32 s := by positivity
  have hfl : cround (1000000 * roundBinary32 s) = ⌊1000000 * roundBinary32 s + 1 / 2⌋ := by
    unfold cround; rw [if_pos hnn]
  have hcast : ((castUInt ub (cround (roundBinary64 (1000000 * roundBinary32 s))) : ℕ) : ℤ)
      = cround (1000000 * roundBinary32 s) := by
    rw [roundBinary64_scaled_float]
    unfold castUInt
    rw [if_pos hrange]
    exact Int.toNat_of_nonneg hrange.1
  have hkq : ((castUInt ub (cround (roundBinary64 (1000000 * roundBinary32 s))) : ℕ) : ℚ)
      = ((⌊1000000 * roundBinary32 s + 1 / 2⌋ : ℤ) : ℚ) := by
    rw [← hfl, ← hcast]; push_cast; rfl
  have h1 := Int.floor_le (1000000 * roundBinary32 s + 1 / 2)
  have h2 := Int.lt_floor_add_one (1000000 * roundBinary32 s + 1 / 2)
  -- below 8 seconds the narrowing moves the value by less than a quarter of a microsecond
  have hnarrow : s < 8 → |roundBinary32 s - s| ≤ (2 : ℚ) ^ (-22 : ℤ) := by
    intro h8
    have habs : |s| < (2 : ℚ) ^ (3 : ℤ) := by rw [abs_of_nonneg h0]; norm_num; exact h8
    have := abs_roundBinary32_sub_le habs (by norm_num)
    norm_num at this ⊢
    exact this
  refine ⟨castUInt ub (cround (roundBinary64 (1000000 * roundBinary32 s))),
    modDelay_of_usecs eng st rfl, modDur_of_usecs eng st rfl, ?_, ?_, ?_, ?_, ?_, ?_⟩
  · rw [hkq]
    rcases eq_or_lt_of_le h1 with heq | hlt'
    · exact Or.inr heq
    · exact Or.inl (by rw [abs_lt]; constructor <;> linarith)
  · have : ((castUInt ub (cround (roundBinary64 (1000000 * roundBinary32 s))) : ℕ) : ℤ)
        < 2 ^ 32 := by
      rw [hcast]; exact hrange.2
    exact_mod_cast this
  · exact roundBinary32_of_isBinary32
  · intro h8
    have hn := hnarrow h8
    rw [abs_le] at hn
    norm_num at hn
    rw [hkq, abs_lt]
    constructor <;> linarith [hn.1, hn.2]
  · intro h8 j hj
    have hn := hnarrow h8
    rw [abs_le] at hn hj
    norm_num at hn
    have hc : cround (1000000 * roundBinary32 s) = (j : ℤ) :=
      cround_eq_of_abs_sub_lt _ j (by
        rw [abs_lt]; push_cast
        constructor <;> linarith [hn.1, hn.2, hj.1, hj.2])
    have : ((castUInt ub (cround (roundBinary64 (1000000 * roundBinary32 s))) : ℕ) : ℤ)
        = (j : ℤ) := by rw [hcast, hc]
    exact_mod_cast this
  · intro hs j hj
    have hx : (1000000 : ℚ) * roundBinary32 s = ((j : ℤ) : ℚ) := by
      rw [roundBinary32_of_isBinary32 hs, hj]; push_cast; ring
    have : ((castUInt ub (cround (roundBinary64 (1000000 * roundBinary32 s))) : ℕ) : ℤ)
        = (j : ℤ) := by
      rw [hcast, hx, cround_intCast]
    exact_mod_cast this

/-- Witness for the amended C7: a millisecond, `0.001` seconds, which is no float, is handed
to the engine as 1000 microseconds. -/
theorem modDelay_modDur_nearest_usec_witness :
    (0 : ℚ) ≤ 1 / 1000 ∧ (1000000 : ℚ) * (1 / 1000) < 2 ^ 32
      ∧ ∃ k : ℕ,
        pulsedThread_modDelay (fun _ => 0) specEngine (some (1 / 1000)) idleEngine
            = { result := .int (specEngine.modDelay k idleEngine).1,
                engine := (specEngine.modDelay k idleEngine).2, calls := [.modDelay k] }
          ∧ k = 1000 := by
  obtain ⟨k, h1, _, _, _, _, _, h7, _⟩ :=
    modDelay_modDur_nearest_usec (fun _ => 0) specEngine idleEngine (1 / 1000) (by norm_num)
      (by norm_num)
  exact ⟨by norm_num, by norm_num, k, h1, h7 (by norm_num) 1000 (by norm_num)⟩

/-- The float product and the conversion of the reported seconds for 9202827
microseconds. -/
theorem reported_seconds_9202827 :
    roundBinary32 (float_1e_06 * roundBinary32 (9202827 : ℚ)) = 9649863 / 2 ^ 20
      ∧ cround (roundBinary64 (1000000 * roundBinary32 (9649863 / 2 ^ 20))) = 9202826 := by
  have hfloat : IsBinary32 (9649863 / 2 ^ 20) :=
    ⟨9649863, -20, by norm_num, by norm_num, by norm_num, by norm_num⟩
  constructor
  · have hfk : roundBinary32 (9202827 : ℚ) = 9202827 := by
      have := roundBinary_exact 24 (-126) 9202827 0 (by norm_num) (by norm_num)
      simpa [roundBinary32] using this
    rw [hfk, float_1e_06_eq]
    have := roundBinary_eval 24 (-126) (8796093 / 2 ^ 43 * 9202827) 3 9649863
      (by norm_num [abs_of_pos]) (by norm_num [abs_of_pos]) (by norm_num)
      (by norm_num [roundTiesEven])
    rw [roundBinary32, this]
    norm_num
  · rw [roundBinary32_of_isBinary32 hfloat, roundBinary64_scaled_of_isBinary32 hfloat]
    exact cround_eq_of_abs_sub_lt _ 9202826 (by norm_num [abs_lt])

/-- C8, refuted as stated: an engine delay of 9202827 microseconds is reported as the float
`9649863 * 2 ^ (-20)` seconds, and that value given back to `pulsedThread_modDelay` reaches
the engine as 9202826 microseconds; the same holds for the duration. -/
theorem seconds_roundtrip_loses_a_microsecond :
    specEngine.getpulseDelayUsecs longPulseEngine = 9202827
      ∧ (pulsedThread_getPulseDelay specEngine longPulseEngine).result
          = .float (9649863 / 2 ^ 20)
      ∧ (pulsedThread_modDelay (fun _ => 0) specEngine (some (9649863 / 2 ^ 20))
          longPulseEngine).calls = [.modDelay 9202826]
      ∧ specEngine.getpulseDurUsecs longPulseEngine = 9202827
      ∧ (pulsedThread_getPulseDuration specEngine longPulseEngine).result
          = .float (9649863 / 2 ^ 20)
      ∧ (pulsedThread_modDur (fun _ => 0) specEngine (some (9649863 / 2 ^ 20))
          longPulseEngine).calls = [.modDur 9202826] := by
  have hk : castUInt (fun _ => 0)
      (cround (roundBinary64 (1000000 * roundBinary32 (9649863 / 2 ^ 20)))) = 9202826 := by
    rw [reported_seconds_9202827.2]; rfl
  have hget : specEngine.getpulseDelayUsecs longPulseEngine = 9202827 := rfl
  have hgetd : specEngine.getpulseDurUsecs longPulseEngine = 9202827 := rfl
  have hp := reported_seconds_9202827.1
  refine ⟨hget, ?_, ?_, hgetd, ?_, ?_⟩
  · simp only [pulsedThread_getPulseDelay, hget]
    rw [← hp]; norm_num
  · rw [modDelay_of_usecs specEngine longPulseEngine hk]
  · simp only [pulsedThread_getPulseDuration, hgetd]
    rw [← hp]; norm_num
  · rw [modDur_of_usecs specEngine longPulseEngine hk]

/-- C10: the two modification functions rebind one reference each.
`pulsedThread_modEndFuncObj` returns 0 and sets the end-function data, and
`pulsedThread_modTaskObj` returns 0 and sets the task data; the other reference and the
seven timing fields of the task descriptor stay as they were. -/
theorem modObj_rebinds_one_reference (p : Ptr) (t : taskParams) :
    ((pulsedThread_modEndFuncObj p t).1 = 0
        ∧ (pulsedThread_modEndFuncObj p t).2.endFuncData = p
        ∧ (pulsedThread_modEndFuncObj p t).2.taskData = t.taskData
        ∧ (pulsedThread_modEndFuncObj p t).2.pulseDelayUsecs = t.pulseDelayUsecs
        ∧ (pulsedThread_modEndFuncObj p t).2.pulseDurUsecs = t.pulseDurUsecs
        ∧ (pulsedThread_modEndFuncObj p t).2.nPulses = t.nPulses
        ∧ (pulsedThread_modEndFuncObj p t).2.doTask = t.doTask
        ∧ (pulsedThread_modEndFuncObj p t).2.trainFrequency = t.trainFrequency
        ∧ (pulsedThread_modEndFuncObj p t).2.trainDutyCycle = t.trainDutyCycle
        ∧ (pulsedThread_modEndFuncObj p t).2.trainDuration = t.trainDuration)
      ∧ ((pulsedThread_modTaskObj p t).1 = 0
        ∧ (pulsedThread_modTaskObj p t).2.taskData = p
        ∧ (pulsedThread_modTaskObj p t).2.endFuncData = t.endFuncData
        ∧ (pulsedThread_modTaskObj p t).2.pulseDelayUsecs = t.pulseDelayUsecs
        ∧ (pulsedThread_modTaskObj p t).2.pulseDurUsecs = t.pulseDurUsecs
        ∧ (pulsedThread_modTaskObj p t).2.nPulses = t.nPulses
        ∧ (pulsedThread_modTaskObj p t).2.doTask = t.doTask
        ∧ (pulsedThread_modTaskObj p t).2.trainFrequency = t.trainFrequency
        ∧ (pulsedThread_modTaskObj p t).2.trainDutyCycle = t.trainDutyCycle
        ∧ (pulsedThread_modTaskObj p t).2.trainDuration = t.trainDuration) :=
  ⟨⟨rfl, rfl, rfl, rfl, rfl, rfl, rfl, rfl, rfl, rfl⟩,
    ⟨rfl, rfl, rfl, rfl, rfl, rfl, rfl, rfl, rfl, rfl⟩⟩

/-- For a byte length that is not negative and below `2 ^ 32` and a positive item size, the
casts change nothing and the length argument is the quotient of the two. -/
theorem arrayLength_eq (len itemsize : ℤ) (h0 : 0 ≤ len) (hlen : len < 2 ^ 32)
    (hitem : 0 < itemsize) : (arrayLength len itemsize : ℤ) = len / itemsize := by
  have hq0 : 0 ≤ len / itemsize := Int.ediv_nonneg h0 hitem.le
  have hq1 : len / itemsize ≤ len := Int.ediv_le_self _ h0
  unfold arrayLength
  rw [Int.emod_eq_of_lt h0 hlen, Int.tdiv_eq_ediv h0 hitem.le,
    Int.emod_eq_of_lt hq0 (lt_of_le_of_lt hq1 hlen), Int.toNat_of_nonneg hq0]

/-- C11: for a float buffer with a positive item size and a byte length below `2 ^ 32`, the
length `n` that `pulsedThread_setArrayFunc` passes to `setUpEndFuncArray` and that
`pulsedThread_cosineDutyCycleArray` passes to the cosine generator is the byte length divided
by the item size.  So a buffer of `m` items is passed as `m`, and an empty buffer as 0. -/
theorem array_length_is_element_count {σ : Type} (eng : EngineOps σ) (st : σ)
    (generator : Ptr → ℕ → ℕ → ℚ → ℚ → ℤ) (bufferObj : BufferObj) (buffer : Py_buffer)
    (endFuncType isLocking : ℤ) (period : ℕ) (offset scaling : ℚ)
    (hcheck : bufferObj.checkBuffer = true) (hget : bufferObj.getBuffer = some buffer)
    (hfmt : buffer.format = "f") (h0 : 0 ≤ buffer.len) (hlen : buffer.len < 2 ^ 32)
    (hitem : 0 < buffer.itemsize) :
    ∃ n : ℕ,
      (n : ℤ) = buffer.len / buffer.itemsize
        ∧ (pulsedThread_setArrayFunc eng
            (some (bufferObj, endFuncType, isLocking)) st).calls.head?
          = some (.setUpEndFuncArray buffer.buf n isLocking)
        ∧ (pulsedThread_cosineDutyCycleArray generator
            (some (bufferObj, period, offset, scaling))).2
          = [.cosineDutyCycleArray buffer.buf n period (roundBinary32 offset)
              (roundBinary32 scaling)]
        ∧ (∀ m : ℕ, buffer.len = buffer.itemsize * m → n = m)
        ∧ (buffer.len = 0 → n = 0) := by
  have hn := arrayLength_eq buffer.len buffer.itemsize h0 hlen hitem
  refine ⟨arrayLength buffer.len buffer.itemsize, hn, ?_, ?_, ?_, ?_⟩
  · simp only [pulsedThread_setArrayFunc, hcheck, hget, hfmt]
    simp only [Bool.true_eq_false, if_false, ne_eq, not_true_eq_false]
    split_ifs <;> rfl
  · simp only [pulsedThread_cosineDutyCycleArray, hcheck, hget, hfmt]
    simp only [Bool.true_eq_false, if_false, ne_eq, not_true_eq_false]
    split_ifs <;> rfl
  · intro m hm
    have : (arrayLength buffer.len buffer.itemsize : ℤ) = (m : ℤ) := by
      rw [hn, hm, Int.mul_ediv_cancel_left _ hitem.ne']
    exact_mod_cast this
  · intro hz
    have : (arrayLength buffer.len buffer.itemsize : ℤ) = 0 := by
      rw [hn, hz, Int.zero_ediv]
    exact_mod_cast this

/-- Witness for C11: the sample array of three floats, twelve bytes of four-byte items, is
passed to the engine as length 3. -/
theorem array_length_is_element_count_witness :
    floatArray.checkBuffer = true
      ∧ floatArray.getBuffer = some { buf := 4096, len := 12, itemsize := 4, format := "f" }
      ∧ ∃ n : ℕ,
        (n : ℤ) = 12 / 4
          ∧ (pulsedThread_setArrayFunc specEngine (some (floatArray, 0, 0)) idleEngine).calls.head?
            = some (.setUpEndFuncArray 4096 n 0)
          ∧ n = 3 := by
  obtain ⟨n, h1, h2, _, h4, _⟩ :=
    array_length_is_element_count specEngine idleEngine (fun _ _ _ _ _ => 0) floatArray
      { buf := 4096, len := 12, itemsize := 4, format := "f" } 0 0 8 (1 / 2) (2 / 5)
      rfl rfl rfl (by decide) (by decide) (by decide)
  exact ⟨rfl, rfl, n, h1, h2, h4 3 (by decide)⟩

/-- A block that passes `checkBlock` passes `roundTripCheck` at each of its counts. -/
theorem checkBlock_sound (d : ℕ) : ∀ lo, checkBlock d lo = true →
    ∀ k, lo ≤ k → k < lo + 2 ^ d → roundTripCheck k = true := by
  induction d with
  | zero =>
    intro lo h k h1 h2
    have : k = lo := by simp at h2; omega
    rw [this]; exact h
  | succ d ih =>
    intro lo h k h1 h2
    simp only [checkBlock, Bool.and_eq_true] at h
    by_cases hk : k < lo + 2 ^ d
    · exact ih lo h.1 k h1 hk
    · exact ih (lo + 2 ^ d) h.2 k (by omega) (by rw [pow_succ] at h2; omega)

/-- Rounding a quotient of naturals to the nearest integer gives the quotient when the
remainder is at most half the divisor, and its successor when it is at least half. -/
theorem roundTiesEven_natCast_div (N M : ℕ) (hM : 0 < M) :
    (roundTiesEven ((N : ℚ) / M) = ((N / M : ℕ) : ℤ) ∧ 2 * (N % M) ≤ M)
      ∨ (roundTiesEven ((N : ℚ) / M) = ((N / M : ℕ) : ℤ) + 1 ∧ M ≤ 2 * (N % M)) := by
  have hMq : (0 : ℚ) < M := by exact_mod_cast hM
  have hfl : ⌊(N : ℚ) / M⌋ = ((N / M : ℕ) : ℤ) := by
    rw [Rat.floor_natCast_div_natCast]; rfl
  have hdecomp : (N : ℚ) = (M : ℚ) * ((N / M : ℕ) : ℚ) + ((N % M : ℕ) : ℚ) := by
    exact_mod_cast (Nat.div_add_mod N M).symm
  have hfrac : (N : ℚ) / M - ((N / M : ℕ) : ℤ) = ((N % M : ℕ) : ℚ) / M := by
    rw [Int.cast_natCast, div_sub' _ _ _ hMq.ne', div_left_inj' hMq.ne']
    linarith [hdecomp]
  unfold roundTiesEven
  rw [hfl, hfrac]
  have hiff1 : ((N % M : ℕ) : ℚ) / M < 1 / 2 ↔ 2 * (N % M) < M := by
    rw [div_lt_iff₀ hMq]
    constructor
    · intro h
      have : ((2 * (N % M) : ℕ) : ℚ) < (M : ℚ) := by push_cast; linarith
      exact_mod_cast this
    · intro h
      have : ((2 * (N % M) : ℕ) : ℚ) < (M : ℚ) := by exact_mod_cast h
      push_cast at this; linarith
  have hiff2 : (1 : ℚ) / 2 < ((N % M : ℕ) : ℚ) / M ↔ M < 2 * (N % M) := by
    rw [lt_div_iff₀ hMq]
    constructor
    · intro h
      have : (M : ℚ) < ((2 * (N % M) : ℕ) : ℚ) := by push_cast; linarith
      exact_mod_cast this
    · intro h
      have : (M : ℚ) < ((2 * (N % M) : ℕ) : ℚ) := by exact_mod_cast h
      push_cast at this; linarith
  split_ifs with h1 h2 h3
  · exact Or.inl ⟨rfl, by have := hiff1.1 h1; omega⟩
  · exact Or.inr ⟨rfl, by have := hiff2.1 h2; omega⟩
  · have a1 : ¬ 2 * (N % M) < M := fun h => h1 (hiff1.2 h)
    have a2 : ¬ M < 2 * (N % M) := fun h => h2 (hiff2.2 h)
    exact Or.inl ⟨rfl, by omega⟩
  · have a1 : ¬ 2 * (N % M) < M := fun h => h1 (hiff1.2 h)
    have a2 : ¬ M < 2 * (N % M) := fun h => h2 (hiff2.2 h)
    exact Or.inr ⟨rfl, by omega⟩

/-- A count between 8000001 and 16000000 that passes `roundTripCheck` comes back from the
seconds reported for it. -/
theorem roundtrip_checked (k : ℕ) (hlo : 8000001 ≤ k) (hhi : k < 16000000)
    (hc : roundTripCheck k = true) :
    cround (roundBinary64 (1000000 *
        roundBinary32 (roundBinary32 (float_1e_06 * roundBinary32 (k : ℚ)))))
      = (k : ℤ) := by
  rw [roundBinary32_idem, roundBinary64_scaled_float]
  have hloq : (8000001 : ℚ) ≤ k := by exact_mod_cast hlo
  have hhiq : (k : ℚ) < 16000000 := by exact_mod_cast hhi
  have hfk : roundBinary32 (k : ℚ) = k := by
    have := roundBinary_exact 24 (-126) (k : ℤ) 0 (by
      rw [abs_of_nonneg (by positivity)]
      have : (k : ℤ) < 16000000 := by exact_mod_cast hhi
      norm_num; omega) (by norm_num)
    simpa [roundBinary32] using this
  rw [hfk, float_1e_06_eq]
  have hxpos : (0 : ℚ) < 8796093 / 2 ^ 43 * (k : ℚ) := by positivity
  have hval := roundBinary_eval 24 (-126) (8796093 / 2 ^ 43 * (k : ℚ)) 3
    (roundTiesEven (8796093 / 2 ^ 43 * (k : ℚ) / (2 : ℚ) ^ ((3 : ℤ) - (24 : ℕ) + 1)))
    (by rw [abs_of_pos hxpos]; norm_num; linarith)
    (by rw [abs_of_pos hxpos]; norm_num; linarith) (by norm_num) rfl
  have hq : 8796093 / 2 ^ 43 * (k : ℚ) / (2 : ℚ) ^ ((3 : ℤ) - (24 : ℕ) + 1)
      = ((8796093 * k : ℕ) : ℚ) / ((8388608 : ℕ) : ℚ) := by
    push_cast; norm_num; ring
  rw [roundBinary32, hval, hq]
  have hnn : ∀ n : ℤ, 0 ≤ n →
      (0 : ℚ) ≤ 1000000 * ((n : ℚ) * (2 : ℚ) ^ ((3 : ℤ) - (24 : ℕ) + 1)) := by
    intro n hn
    have : (0 : ℚ) ≤ (n : ℚ) := by exact_mod_cast hn
    positivity
  -- the count that `round` finds for the float `n * 2 ^ (-20)`
  have hround : ∀ n : ℕ, countOk n k = true →
      cround (1000000 * (((n : ℤ) : ℚ) * (2 : ℚ) ^ ((3 : ℤ) - (24 : ℕ) + 1))) = (k : ℤ) := by
    intro n hn
    simp only [countOk, Bool.and_eq_true, decide_eq_true_eq] at hn
    have h1 : ((16384 * k : ℕ) : ℚ) ≤ ((15625 * n + 8192 : ℕ) : ℚ) := by exact_mod_cast hn.1
    have h2 : ((15625 * n : ℕ) : ℚ) < ((16384 * k + 8192 : ℕ) : ℚ) := by exact_mod_cast hn.2
    push_cast at h1 h2
    unfold cround
    rw [if_pos (hnn n (by positivity)), Int.floor_eq_iff]
    push_cast
    norm_num
    constructor <;> linarith
  simp only [roundTripCheck, Bool.and_eq_true, Bool.or_eq_true, decide_eq_true_eq] at hc
  rcases roundTiesEven_natCast_div (8796093 * k) 8388608 (by norm_num) with ⟨hr, ha⟩ | ⟨hr, ha⟩
  · rw [hr]
    rcases hc.1 with hbad | hok
    · omega
    · exact hround _ hok
  · rw [hr]
    rcases hc.2 with hbad | hok
    · omega
    · have := hround (8796093 * k / 8388608 + 1) hok
      push_cast at this ⊢
      exact this

/-- Each of the `2 ^ 15` counts from 9170059 to 9202826 passes `roundTripCheck`. -/
theorem block_below_9202827 : checkBlock 15 9170059 = true := by decide!

/-- The seconds reported for a count come back as the count when it is below 9202827. -/
theorem reported_seconds_back (ub : ℤ → ℕ) (k : ℕ) (hk : k < 9202827) :
    castUInt ub (cround (roundBinary64 (1000000 *
        roundBinary32 (roundBinary32 (float_1e_06 * roundBinary32 (k : ℚ)))))) = k := by
  have hcore : cround (roundBinary64 (1000000 *
      roundBinary32 (roundBinary32 (float_1e_06 * roundBinary32 (k : ℚ))))) = (k : ℤ) := by
    by_cases hsmall : k ≤ 9174000
    · exact roundtrip_core k hsmall
    · exact roundtrip_checked k (by omega) (by omega)
        (checkBlock_sound 15 9170059 block_below_9202827 k (by omega) (by norm_num; omega))
  rw [hcore]
  unfold castUInt
  rw [if_pos ⟨by positivity, by
    have : (k : ℤ) < 9202827 := by exact_mod_cast hk
    norm_num; omega⟩]
  simp

/-- C8, amended: for an engine delay and duration below 9202827 microseconds the seconds
getters undo the seconds setters: the value a getter reports, given back to the matching
setter, reaches the engine as exactly the microsecond count it came from. -/
theorem seconds_roundtrip_below_9202827 {σ : Type} (ub : ℤ → ℕ) (eng : EngineOps σ)
    (st st' : σ) (hdelay : eng.getpulseDelayUsecs st < 9202827)
    (hdur : eng.getpulseDurUsecs st < 9202827) :
    ∃ p q : ℚ,
      (pulsedThread_getPulseDelay eng st).result = .float p
        ∧ pulsedThread_modDelay ub eng (some p) st'
          = { result := .int (eng.modDelay (eng.getpulseDelayUsecs st) st').1,
              engine := (eng.modDelay (eng.getpulseDelayUsecs st) st').2,
              calls := [.modDelay (eng.getpulseDelayUsecs st)] }
        ∧ (pulsedThread_getPulseDuration eng st).result = .float q
        ∧ pulsedThread_modDur ub eng (some q) st'
          = { result := .int (eng.modDur (eng.getpulseDurUsecs st) st').1,
              engine := (eng.modDur (eng.getpulseDurUsecs st) st').2,
              calls := [.modDur (eng.getpulseDurUsecs st)] } :=
  ⟨_, _, rfl, modDelay_of_usecs eng st' (reported_seconds_back ub _ hdelay), rfl,
    modDur_of_usecs eng st' (reported_seconds_back ub _ hdur)⟩

/-- Witness for the amended C8: the sample engine, with a delay and a duration of 1000
microseconds. -/
theorem seconds_roundtrip_below_9202827_witness :
    specEngine.getpulseDelayUsecs idleEngine < 9202827
      ∧ specEngine.getpulseDurUsecs idleEngine < 9202827
      ∧ ∃ p q : ℚ,
        (pulsedThread_getPulseDelay specEngine idleEngine).result = .float p
          ∧ pulsedThread_modDelay (fun _ => 0) specEngine (some p) idleEngine
            = { result := .int (specEngine.modDelay 1000 idleEngine).1,
                engine := (specEngine.modDelay 1000 idleEngine).2,
                calls := [.modDelay 1000] }
          ∧ (pulsedThread_getPulseDuration specEngine idleEngine).result = .float q
          ∧ pulsedThread_modDur (fun _ => 0) specEngine (some q) idleEngine
            = { result := .int (specEngine.modDur 1000 idleEngine).1,
                engine := (specEngine.modDur 1000 idleEngine).2,
                calls := [.modDur 1000] } :=
  ⟨by decide, by decide,
    seconds_roundtrip_below_9202827 (fun _ => 0) specEngine idleEngine idleEngine
      (by decide) (by decide)⟩

end PyPulsedThread
